import Mathlib

/-!
A verification development for the sge-scrapper repository: shallow
embeddings of the scrape orchestrator (src/services/scrape_service.py),
the session record store (src/services/session_service.py), the social
content extractor (src/scraper/social_extractor.py), the article title
extraction chain (src/scraper/article_scraper.py) and the stored-session
validity check (src/services/auth_service.py), with theorems about them.

Conventions of the embedding:
* Python strings are Lean String values; regular-expression searches from
  the source are embedded as executable recognizers over List Char, with
  re.IGNORECASE rendered by folding both sides with Char.toLower and the
  character class backslash-w rendered as isAlphanum or underscore
  (the source only ever applies these patterns to URL-like text).
* re.finditer over the raw page text, datetime parsing and the clock are
  external library calls; they enter the model as explicit function and
  integer parameters.
* Python dict .get with a default is Option.getD; Python truthiness of a
  string is a comparison with the empty string, of an integer with 0.
* The relational store is a record of lists of rows; SQLAlchemy query
  .first() is List.find?, .delete() is List.filter, adding a row is
  List append, order_by started_at desc then .first() is a fold keeping
  the first row of maximal started_at.
-/

namespace Sge

/-! ## Character and string scanning helpers (the regex model) -/

/-- Python backslash-w: letters, digits, underscore. -/
def isWordChar (c : Char) : Bool :=
  c.isAlphanum || c == '_'

/-- The class [backslash-w or dot or dash] used by TikTok username patterns. -/
def tiktokUserChar (c : Char) : Bool :=
  isWordChar c || c == '.' || c == '-'

/-- The class [backslash-w or dash] used by Instagram/YouTube id patterns. -/
def wordDashChar (c : Char) : Bool :=
  isWordChar c || c == '-'

/-- Case-insensitive character comparison (re.IGNORECASE). -/
def lowerEq (a b : Char) : Bool :=
  a.toLower == b.toLower

/-- needle is a case-insensitive prefix of hay. -/
def isPrefixCI : List Char → List Char → Bool
  | [], _ => true
  | _ :: _, [] => false
  | a :: as, b :: bs => lowerEq a b && isPrefixCI as bs

/-- Case-insensitive search (re.search of a literal pattern): some suffix of
hay starts with needle, ignoring case. -/
def searchCI (needle : List Char) : List Char → Bool
  | [] => needle.isEmpty
  | l@(_ :: rest) => isPrefixCI needle l || searchCI needle rest

/-- hay contains needle case-insensitively. -/
def containsCI (hay needle : String) : Bool :=
  searchCI needle.toList hay.toList

/-- Case-sensitive search. -/
def searchCS (needle : List Char) : List Char → Bool
  | [] => needle.isEmpty
  | l@(_ :: rest) => needle.isPrefixOf l || searchCS needle rest

/-- hay contains needle case-sensitively (Python substring test). -/
def containsCS (hay needle : String) : Bool :=
  searchCS needle.toList hay.toList

/-- Search, case-insensitively, for a literal followed by at least one
character of the class cls (re.search of lit then cls-plus). Used for the
anchor href patterns qualified with re.IGNORECASE. -/
def searchLitClassCI (lit : List Char) (cls : Char → Bool) : List Char → Bool
  | [] => false
  | l@(_ :: rest) =>
    (isPrefixCI lit l &&
      (match l.drop lit.length with
       | [] => false
       | d :: _ => cls d)) || searchLitClassCI lit cls rest

/-- Case-sensitive search for a literal followed by a maximal nonempty run of
class characters; returns the run (the captured group of lit then (cls-plus)).
Because cls never contains a slash and each literal ends in a non-class
character, the greedy run is the unique possible group. -/
def findLitRunCS (lit : List Char) (cls : Char → Bool) : List Char → Option (List Char)
  | [] => none
  | l@(_ :: rest) =>
    if lit.isPrefixOf l then
      let run := (l.drop lit.length).takeWhile cls
      if run.isEmpty then findLitRunCS lit cls rest else some run
    else findLitRunCS lit cls rest

/-- Case-insensitive variant of findLitRunCS, for group captures under
re.IGNORECASE (the TikTok anchor pattern). The run must be followed by the
given case-insensitive tail literal. -/
def searchLitRunTailCI (lit : List Char) (cls : Char → Bool) (tail : List Char) :
    List Char → Bool
  | [] => false
  | l@(_ :: rest) =>
    (isPrefixCI lit l &&
      (let after := l.drop lit.length
       let run := after.takeWhile cls
       !run.isEmpty && isPrefixCI tail (after.drop run.length))) ||
    searchLitRunTailCI lit cls tail rest

/-- The pattern (twitter or x) dot com slash dot-plus slash status slash, with
optionally a digit required after it: at the current position, consume at
least one non-newline character, then the literal /status/ (and a digit when
needDigit). Models the regex dot-plus backtracking. -/
def dotPlusStatus (needDigit : Bool) : Bool → List Char → Bool
  | _, [] => false
  | consumed, l@(c :: rest) =>
    (consumed && isPrefixCI "/status/".toList l &&
      (if needDigit then
        (match l.drop 8 with
         | [] => false
         | d :: _ => d.isDigit)
       else true)) ||
    (c != '\n' && dotPlusStatus needDigit true rest)

/-- re.search of (twitter or x) dot com slash dot-plus slash status slash
(then digits when needDigit), case-insensitively. -/
def twitterStatusSearch (needDigit : Bool) : List Char → Bool
  | [] => false
  | l@(_ :: rest) =>
    (isPrefixCI "twitter.com/".toList l && dotPlusStatus needDigit false (l.drop 12)) ||
    (isPrefixCI "x.com/".toList l && dotPlusStatus needDigit false (l.drop 6)) ||
    twitterStatusSearch needDigit rest

/-! ### Username and video-id extraction (the capture-group helpers) -/

/-- SocialExtractor._extract_tiktok_username: first case-sensitive match of
tiktok.com/at-sign then the captured username run. -/
def tiktokUsernameAux : List Char → Option String
  | [] => none
  | l@(_ :: rest) =>
    if "tiktok.com/@".toList.isPrefixOf l then
      let run := (l.drop 12).takeWhile tiktokUserChar
      if run.isEmpty then tiktokUsernameAux rest else some (String.mk run)
    else tiktokUsernameAux rest

def extractTiktokUsername (url : String) : Option String :=
  tiktokUsernameAux url.toList

/-- SocialExtractor._extract_instagram_username: first case-sensitive match of
instagram.com/ then a run of [word, dot, dash] followed by a slash; reserved
path segments yield none. -/
def instagramUsernameAux : List Char → Option String
  | [] => none
  | l@(_ :: rest) =>
    if "instagram.com/".toList.isPrefixOf l then
      let run := (l.drop 14).takeWhile tiktokUserChar
      if run.isEmpty || !("/".toList.isPrefixOf ((l.drop 14).drop run.length)) then
        instagramUsernameAux rest
      else some (String.mk run)
    else instagramUsernameAux rest

def extractInstagramUsername (url : String) : Option String :=
  match instagramUsernameAux url.toList with
  | some u => if u == "p" || u == "reel" || u == "tv" || u == "stories" then none else some u
  | none => none

/-- SocialExtractor._extract_twitter_username: first case-sensitive match of
(twitter or x) dot com slash, a word run, slash status slash; the word run is
the captured username. -/
def twitterUsernameAux : List Char → Option String
  | [] => none
  | l@(_ :: rest) =>
    let attempt : List Char → Option String := fun after =>
      let run := after.takeWhile isWordChar
      if run.isEmpty || !("/status/".toList.isPrefixOf (after.drop run.length)) then none
      else some (String.mk run)
    if "twitter.com/".toList.isPrefixOf l then
      match attempt (l.drop 12) with
      | some u => some u
      | none => twitterUsernameAux rest
    else if "x.com/".toList.isPrefixOf l then
      match attempt (l.drop 6) with
      | some u => some u
      | none => twitterUsernameAux rest
    else twitterUsernameAux rest

def extractTwitterUsername (url : String) : Option String :=
  twitterUsernameAux url.toList

/-- SocialExtractor._extract_youtube_video_id: the four case-sensitive
patterns tried in order, each a literal followed by a captured [word, dash]
run. -/
def extractYoutubeVideoId (url : String) : Option String :=
  match findLitRunCS "youtube.com/embed/".toList wordDashChar url.toList with
  | some r => some (String.mk r)
  | none =>
    match findLitRunCS "youtube.com/watch?v=".toList wordDashChar url.toList with
    | some r => some (String.mk r)
    | none =>
      match findLitRunCS "youtu.be/".toList wordDashChar url.toList with
      | some r => some (String.mk r)
      | none =>
        match findLitRunCS "youtube.com/shorts/".toList wordDashChar url.toList with
        | some r => some (String.mk r)
        | none => none

/-! ## The parsed-document model (BeautifulSoup output)

The extractor consumes the element structure of the page, not raw text:
find_all by tag name returns the elements of that tag in document order,
with an attribute regex restricting to elements carrying a matching
attribute.  An element is modelled by the attributes and text the source
reads from it, plus its serialization (Python str(element)). -/

structure IframeEl where
  src : Option String := none
  html : String := ""
deriving Repr, DecidableEq

structure AnchorEl where
  href : Option String := none
  text : String := ""
deriving Repr, DecidableEq

structure BlockquoteEl where
  classes : List String := []
  cite : Option String := none
  dataVideoId : Option String := none
  dataInstgrmPermalink : Option String := none
  innerLinks : List AnchorEl := []
  text : String := ""
  html : String := ""
deriving Repr, DecidableEq

structure ImgEl where
  alt : Option String := none
  src : Option String := none
  dataSrc : Option String := none
deriving Repr, DecidableEq

structure Soup where
  iframes : List IframeEl := []
  blockquotes : List BlockquoteEl := []
  anchors : List AnchorEl := []
  imgs : List ImgEl := []
deriving Repr, DecidableEq

/-- An attribute regex filter: the attribute must be present and match. -/
def attrMatches (a : Option String) (p : String → Bool) : Bool :=
  match a with
  | some s => p s
  | none => false

/-- A BeautifulSoup class filter with a regex: some class of the element
matches the pattern. -/
def classMatches (classes : List String) (p : String → Bool) : Bool :=
  classes.any p

/-! ## SocialContentData (src/scraper/social_extractor.py) -/

structure SocialContentData where
  platform : String
  contentType : String
  url : Option String := none
  embedHtml : Option String := none
  thumbnailUrl : Option String := none
  username : Option String := none
  caption : Option String := none
  metadata : Option (List (String × String)) := none
  positionInArticle : Nat := 0
deriving Repr, DecidableEq

/-- The deduplication inside SocialExtractor._regex_urls. -/
def dedupKeepFirst (seen : List String) : List String → List String
  | [] => []
  | u :: rest =>
    if seen.contains u then dedupKeepFirst seen rest
    else u :: dedupKeepFirst (u :: seen) rest

/-- SocialExtractor._regex_urls: unique matches in order of first occurrence.
The regex engine (re.finditer) is an external call, passed in as the
finditer argument mapping (pattern, text) to the raw match list. -/
def regexUrls (finditer : String → String → List String) (html : String)
    (pattern : String) : List String :=
  dedupKeepFirst [] (finditer pattern html)

/-- Python truthiness of an optional string. -/
def truthy : Option String → Bool
  | some s => s != ""
  | none => false

/-- Python: value in a set, for an optional left operand (None is never in a
set of strings). -/
def vidIn (vid : Option String) (ids : List String) : Bool :=
  match vid with
  | some v => ids.contains v
  | none => false

/-- get_text(strip=True) or None. -/
def textOrNone (s : String) : Option String :=
  if s != "" then some s else none

/-! ## TikTok extraction (SocialExtractor._extract_tiktok) -/

def tiktokIframeSel (f : IframeEl) : Bool :=
  attrMatches f.src (fun s => containsCI s "tiktok.com")

def tiktokBqSel (bq : BlockquoteEl) : Bool :=
  classMatches bq.classes (fun c => containsCI c "tiktok-embed")

def tiktokLinkSel (a : AnchorEl) : Bool :=
  attrMatches a.href
    (fun h => searchLitRunTailCI "tiktok.com/@".toList tiktokUserChar "/video/".toList h.toList)

def tiktokRegexPattern : String :=
  "https?://(?:www\\.)?tiktok\\.com/(?:@[\\w\\.-]+/video/\\d+|embed/[\\w/-]+|t/[\\w\\d]+)"

def tiktokIframesLoop : List IframeEl → List String → List SocialContentData × List String
  | [], seen => ([], seen)
  | f :: rest, seen =>
    let src := f.src.getD ""
    if seen.contains src then tiktokIframesLoop rest seen
    else
      let c : SocialContentData :=
        { platform := "tiktok", contentType := "embed", url := some src,
          embedHtml := some f.html, username := extractTiktokUsername src }
      let (cs, seen2) := tiktokIframesLoop rest (src :: seen)
      (c :: cs, seen2)

/-- The URL a TikTok blockquote yields: cite when truthy, else a video URL
synthesized from data-video-id, else none. -/
def tiktokBqUrl (bq : BlockquoteEl) : Option String :=
  let cite := bq.cite.getD ""
  let dvid := bq.dataVideoId.getD ""
  if cite != "" then some cite
  else if dvid != "" then some ("https://www.tiktok.com/video/" ++ dvid) else none

def tiktokBlockquotesLoop :
    List BlockquoteEl → List String → List SocialContentData × List String
  | [], seen => ([], seen)
  | bq :: rest, seen =>
    let dvid := bq.dataVideoId.getD ""
    let url := tiktokBqUrl bq
    if truthy url && vidIn url seen then tiktokBlockquotesLoop rest seen
    else
      let c : SocialContentData :=
        { platform := "tiktok", contentType := "embed", url := url,
          embedHtml := some bq.html, username := extractTiktokUsername (url.getD ""),
          metadata := if dvid != "" then some [("video_id", dvid)] else none }
      let seen2 := if truthy url then url.getD "" :: seen else seen
      let (cs, seen3) := tiktokBlockquotesLoop rest seen2
      (c :: cs, seen3)

def tiktokLinksLoop : List AnchorEl → List String → List SocialContentData × List String
  | [], seen => ([], seen)
  | a :: rest, seen =>
    let href := a.href.getD ""
    if href != "" && !(seen.contains href) then
      let c : SocialContentData :=
        { platform := "tiktok", contentType := "video", url := some href,
          username := extractTiktokUsername href, caption := textOrNone a.text }
      let (cs, seen2) := tiktokLinksLoop rest (href :: seen)
      (c :: cs, seen2)
    else tiktokLinksLoop rest seen

def tiktokRegexLoop : List String → List String → List SocialContentData × List String
  | [], seen => ([], seen)
  | u :: rest, seen =>
    if seen.contains u then tiktokRegexLoop rest seen
    else
      let c : SocialContentData :=
        { platform := "tiktok", contentType := "video", url := some u,
          username := extractTiktokUsername u }
      let (cs, seen2) := tiktokRegexLoop rest (u :: seen)
      (c :: cs, seen2)

def extractTiktok (soup : Soup) (rawHtml : String)
    (finditer : String → String → List String) : List SocialContentData :=
  let (a, seen1) := tiktokIframesLoop (soup.iframes.filter tiktokIframeSel) []
  let (b, seen2) := tiktokBlockquotesLoop (soup.blockquotes.filter tiktokBqSel) seen1
  let (c, seen3) := tiktokLinksLoop (soup.anchors.filter tiktokLinkSel) seen2
  let (d, _) := tiktokRegexLoop (regexUrls finditer rawHtml tiktokRegexPattern) seen3
  a ++ b ++ c ++ d

/-! ## Instagram extraction (SocialExtractor._extract_instagram) -/

def igBqSel (bq : BlockquoteEl) : Bool :=
  classMatches bq.classes (fun c => containsCI c "instagram-media")

def igInnerLinkSel (a : AnchorEl) : Bool :=
  attrMatches a.href (fun h => containsCI h "instagram.com/p/")

def igIframeSel (f : IframeEl) : Bool :=
  attrMatches f.src (fun s => containsCI s "instagram.com")

def igLinkSelP (a : AnchorEl) : Bool :=
  attrMatches a.href (fun h => searchLitClassCI "instagram.com/p/".toList wordDashChar h.toList)

def igLinkSelReel (a : AnchorEl) : Bool :=
  attrMatches a.href
    (fun h => searchLitClassCI "instagram.com/reel/".toList wordDashChar h.toList)

def igLinkSelTv (a : AnchorEl) : Bool :=
  attrMatches a.href (fun h => searchLitClassCI "instagram.com/tv/".toList wordDashChar h.toList)

def igRegexPattern : String :=
  "https?://(?:www\\.)?instagram\\.com/(?:reel|p|tv)/[\\w-]+"

/-- The URL an Instagram blockquote yields: the data-instgrm-permalink when
truthy, else the href of the first inner instagram.com/p/ link. -/
def igBqUrl (bq : BlockquoteEl) : Option String :=
  let permalink := bq.dataInstgrmPermalink.getD ""
  if permalink != "" then some permalink
  else
    match bq.innerLinks.find? igInnerLinkSel with
    | some a => a.href
    | none => none

def igBlockquotesLoop :
    List BlockquoteEl → List String → List SocialContentData × List String
  | [], seen => ([], seen)
  | bq :: rest, seen =>
    let url := igBqUrl bq
    if vidIn url seen then igBlockquotesLoop rest seen
    else
      let c : SocialContentData :=
        { platform := "instagram", contentType := "embed", url := url,
          embedHtml := some bq.html, username := extractInstagramUsername (url.getD "") }
      let seen2 := if truthy url then url.getD "" :: seen else seen
      let (cs, seen3) := igBlockquotesLoop rest seen2
      (c :: cs, seen3)

def igIframesLoop : List IframeEl → List String → List SocialContentData × List String
  | [], seen => ([], seen)
  | f :: rest, seen =>
    let src := f.src.getD ""
    if seen.contains src then igIframesLoop rest seen
    else
      let c : SocialContentData :=
        { platform := "instagram", contentType := "embed", url := some src,
          embedHtml := some f.html, username := extractInstagramUsername src }
      let (cs, seen2) := igIframesLoop rest (src :: seen)
      (c :: cs, seen2)

/-- Content type of an Instagram link or regex match. -/
def igContentType (href : String) : String :=
  if containsCS href "/reel/" || containsCS href "/tv/" then "video" else "post"

def igLinksLoop : List AnchorEl → List String → List SocialContentData × List String
  | [], seen => ([], seen)
  | a :: rest, seen =>
    let href := a.href.getD ""
    if href != "" && !(seen.contains href) then
      let c : SocialContentData :=
        { platform := "instagram", contentType := igContentType href, url := some href,
          username := extractInstagramUsername href, caption := textOrNone a.text }
      let (cs, seen2) := igLinksLoop rest (href :: seen)
      (c :: cs, seen2)
    else igLinksLoop rest seen

def igRegexLoop : List String → List String → List SocialContentData × List String
  | [], seen => ([], seen)
  | u :: rest, seen =>
    if seen.contains u then igRegexLoop rest seen
    else
      let c : SocialContentData :=
        { platform := "instagram", contentType := igContentType u, url := some u,
          username := extractInstagramUsername u }
      let (cs, seen2) := igRegexLoop rest (u :: seen)
      (c :: cs, seen2)

def extractInstagram (soup : Soup) (rawHtml : String)
    (finditer : String → String → List String) : List SocialContentData :=
  let (a, seen1) := igBlockquotesLoop (soup.blockquotes.filter igBqSel) []
  let (b, seen2) := igIframesLoop (soup.iframes.filter igIframeSel) seen1
  let (c1, seen3) := igLinksLoop (soup.anchors.filter igLinkSelP) seen2
  let (c2, seen4) := igLinksLoop (soup.anchors.filter igLinkSelReel) seen3
  let (c3, seen5) := igLinksLoop (soup.anchors.filter igLinkSelTv) seen4
  let (d, _) := igRegexLoop (regexUrls finditer rawHtml igRegexPattern) seen5
  a ++ b ++ c1 ++ c2 ++ c3 ++ d

/-! ## Twitter/X extraction (SocialExtractor._extract_twitter) -/

def twBqSel (bq : BlockquoteEl) : Bool :=
  classMatches bq.classes (fun c => containsCI c "twitter-tweet")

def twInnerLinkSel (a : AnchorEl) : Bool :=
  attrMatches a.href (fun h => twitterStatusSearch false h.toList)

def twIframeSel (f : IframeEl) : Bool :=
  attrMatches f.src
    (fun s => containsCI s "platform.twitter.com" || containsCI s "platform.x.com")

def twLinkSel (a : AnchorEl) : Bool :=
  attrMatches a.href (fun h => twitterStatusSearch true h.toList)

def twRegexPattern : String :=
  "https?://(?:www\\.)?(?:twitter\\.com|x\\.com)/[\\w]+/status/\\d+"

/-- The URL a Twitter blockquote yields: the href of its first status link. -/
def twBqUrl (bq : BlockquoteEl) : Option String :=
  match bq.innerLinks.find? twInnerLinkSel with
  | some a => a.href
  | none => none

def twBlockquotesLoop :
    List BlockquoteEl → List String → List SocialContentData × List String
  | [], seen => ([], seen)
  | bq :: rest, seen =>
    let url := twBqUrl bq
    if vidIn url seen then twBlockquotesLoop rest seen
    else
      let c : SocialContentData :=
        { platform := "twitter", contentType := "tweet", url := url,
          embedHtml := some bq.html, username := extractTwitterUsername (url.getD ""),
          caption := if bq.text != "" then some (bq.text.take 500) else none }
      let seen2 := if truthy url then url.getD "" :: seen else seen
      let (cs, seen3) := twBlockquotesLoop rest seen2
      (c :: cs, seen3)

def twIframesLoop : List IframeEl → List String → List SocialContentData × List String
  | [], seen => ([], seen)
  | f :: rest, seen =>
    let src := f.src.getD ""
    if seen.contains src then twIframesLoop rest seen
    else
      let c : SocialContentData :=
        { platform := "twitter", contentType := "embed", url := some src,
          embedHtml := some f.html }
      let (cs, seen2) := twIframesLoop rest (src :: seen)
      (c :: cs, seen2)

def twLinksLoop : List AnchorEl → List String → List SocialContentData × List String
  | [], seen => ([], seen)
  | a :: rest, seen =>
    let href := a.href.getD ""
    if href != "" && !(seen.contains href) then
      let c : SocialContentData :=
        { platform := "twitter", contentType := "tweet", url := some href,
          username := extractTwitterUsername href, caption := textOrNone a.text }
      let (cs, seen2) := twLinksLoop rest (href :: seen)
      (c :: cs, seen2)
    else twLinksLoop rest seen

def twRegexLoop : List String → List String → List SocialContentData × List String
  | [], seen => ([], seen)
  | u :: rest, seen =>
    if seen.contains u then twRegexLoop rest seen
    else
      let c : SocialContentData :=
        { platform := "twitter", contentType := "tweet", url := some u,
          username := extractTwitterUsername u }
      let (cs, seen2) := twRegexLoop rest (u :: seen)
      (c :: cs, seen2)

def extractTwitter (soup : Soup) (rawHtml : String)
    (finditer : String → String → List String) : List SocialContentData :=
  let (a, seen1) := twBlockquotesLoop (soup.blockquotes.filter twBqSel) []
  let (b, seen2) := twIframesLoop (soup.iframes.filter twIframeSel) seen1
  let (c, seen3) := twLinksLoop (soup.anchors.filter twLinkSel) seen2
  let (d, _) := twRegexLoop (regexUrls finditer rawHtml twRegexPattern) seen3
  a ++ b ++ c ++ d

/-! ## YouTube extraction (SocialExtractor._extract_youtube) -/

def ytIframeSel (f : IframeEl) : Bool :=
  attrMatches f.src (fun s => containsCI s "youtube.com/embed/")

def ytLinkSelWatch (a : AnchorEl) : Bool :=
  attrMatches a.href
    (fun h => searchLitClassCI "youtube.com/watch?v=".toList wordDashChar h.toList)

def ytLinkSelBe (a : AnchorEl) : Bool :=
  attrMatches a.href (fun h => searchLitClassCI "youtu.be/".toList wordDashChar h.toList)

def ytLinkSelShorts (a : AnchorEl) : Bool :=
  attrMatches a.href
    (fun h => searchLitClassCI "youtube.com/shorts/".toList wordDashChar h.toList)

def ytRegexPattern : String :=
  "https?://(?:www\\.)?(?:youtube\\.com/watch\\?v=|youtu\\.be/|youtube\\.com/shorts/)[\\w-]+"

def watchUrl (v : String) : String :=
  "https://www.youtube.com/watch?v=" ++ v

def thumbUrl (v : String) : String :=
  "https://img.youtube.com/vi/" ++ v ++ "/maxresdefault.jpg"

/-- Content type of a YouTube link or regex match. -/
def ytContentType (href : String) : String :=
  if containsCS href "/shorts/" then "short" else "video"

def ytIframesLoop :
    List IframeEl → List String → List String →
      List SocialContentData × List String × List String
  | [], seen, ids => ([], seen, ids)
  | f :: rest, seen, ids =>
    let src := f.src.getD ""
    let vid := extractYoutubeVideoId src
    if seen.contains src || (truthy vid && ids.contains (vid.getD "")) then
      ytIframesLoop rest seen ids
    else
      let c : SocialContentData :=
        { platform := "youtube", contentType := "video",
          url := some (if truthy vid then watchUrl (vid.getD "") else src),
          embedHtml := some f.html,
          thumbnailUrl := if truthy vid then some (thumbUrl (vid.getD "")) else none,
          metadata := if truthy vid then some [("video_id", vid.getD "")] else none }
      let ids2 := if truthy vid then vid.getD "" :: ids else ids
      let (cs, seen2, ids3) := ytIframesLoop rest (src :: seen) ids2
      (c :: cs, seen2, ids3)

def ytLinksLoop :
    List AnchorEl → List String → List String →
      List SocialContentData × List String × List String
  | [], seen, ids => ([], seen, ids)
  | a :: rest, seen, ids =>
    let href := a.href.getD ""
    let vid := extractYoutubeVideoId href
    if href != "" && !(seen.contains href) && !(vidIn vid ids) then
      let c : SocialContentData :=
        { platform := "youtube", contentType := ytContentType href, url := some href,
          thumbnailUrl := if truthy vid then some (thumbUrl (vid.getD "")) else none,
          caption := textOrNone a.text,
          metadata := if truthy vid then some [("video_id", vid.getD "")] else none }
      let ids2 := if truthy vid then vid.getD "" :: ids else ids
      let (cs, seen2, ids3) := ytLinksLoop rest (href :: seen) ids2
      (c :: cs, seen2, ids3)
    else ytLinksLoop rest seen ids

def ytRegexLoop :
    List String → List String → List String →
      List SocialContentData × List String × List String
  | [], seen, ids => ([], seen, ids)
  | u :: rest, seen, ids =>
    let vid := extractYoutubeVideoId u
    if seen.contains u || (truthy vid && ids.contains (vid.getD "")) then
      ytRegexLoop rest seen ids
    else
      let c : SocialContentData :=
        { platform := "youtube", contentType := ytContentType u, url := some u,
          thumbnailUrl := if truthy vid then some (thumbUrl (vid.getD "")) else none,
          metadata := if truthy vid then some [("video_id", vid.getD "")] else none }
      let ids2 := if truthy vid then vid.getD "" :: ids else ids
      let (cs, seen2, ids3) := ytRegexLoop rest (u :: seen) ids2
      (c :: cs, seen2, ids3)

def extractYoutube (soup : Soup) (rawHtml : String)
    (finditer : String → String → List String) : List SocialContentData :=
  let (a, seen1, ids1) := ytIframesLoop (soup.iframes.filter ytIframeSel) [] []
  let (b1, seen2, ids2) := ytLinksLoop (soup.anchors.filter ytLinkSelWatch) seen1 ids1
  let (b2, seen3, ids3) := ytLinksLoop (soup.anchors.filter ytLinkSelBe) seen2 ids2
  let (b3, seen4, ids4) := ytLinksLoop (soup.anchors.filter ytLinkSelShorts) seen3 ids3
  let (d, _, _) := ytRegexLoop (regexUrls finditer rawHtml ytRegexPattern) seen4 ids4
  a ++ b1 ++ b2 ++ b3 ++ d

/-! ## Screenshot extraction (SocialExtractor._extract_screenshots) -/

/-- The platform suggested by an img element, via alt-text keywords first and
then the src filename. -/
def screenshotPlatform (img : ImgEl) : Option String :=
  let alt := (img.alt.getD "").toLower
  let src :=
    if truthy img.src then img.src.getD ""
    else if truthy img.dataSrc then img.dataSrc.getD "" else ""
  if containsCS alt "tiktok" || containsCS alt "tik tok" then some "tiktok"
  else if containsCS alt "instagram" || containsCS alt "ig " || containsCS alt "insta" then
    some "instagram"
  else if containsCS alt "twitter" || containsCS alt "tweet" || containsCS alt " x " then
    some "twitter"
  else if containsCS alt "youtube" || containsCS alt "yt " then some "youtube"
  else if containsCS alt "facebook" || containsCS alt "fb " then some "facebook"
  else if containsCS alt "linkedin" then some "linkedin"
  else
    let srcLower := src.toLower
    if containsCS srcLower "tiktok" then some "tiktok"
    else if containsCS srcLower "instagram" || containsCS srcLower "insta" then
      some "instagram"
    else if containsCS srcLower "twitter" || containsCS srcLower "tweet" then some "twitter"
    else none

def extractScreenshots (soup : Soup) : List SocialContentData :=
  soup.imgs.filterMap fun img =>
    match screenshotPlatform img with
    | some p =>
      let src :=
        if truthy img.src then img.src.getD ""
        else if truthy img.dataSrc then img.dataSrc.getD "" else ""
      some { platform := p, contentType := "screenshot", thumbnailUrl := some src,
             caption := img.alt }
    | none => none

/-! ## extract_all (SocialExtractor.extract_all) -/

/-- The running position counter of extract_all: each appended content gets
the next position. -/
def withPositions : Nat → List SocialContentData → List SocialContentData
  | _, [] => []
  | p, c :: rest => { c with positionInArticle := p } :: withPositions (p + 1) rest

def extractAll (soup : Soup) (htmlContent : String)
    (finditer : String → String → List String) : List SocialContentData :=
  withPositions 0
    (extractTiktok soup htmlContent finditer ++
     extractInstagram soup htmlContent finditer ++
     extractTwitter soup htmlContent finditer ++
     extractYoutube soup htmlContent finditer ++
     extractScreenshots soup)

/-! ## Title extraction (ArticleScraper._extract_title)

page_props is the Next.js embedded-state dictionary; post and article are
its optional sub-dictionaries, and title is the optional title key of each
(a JSON string when present; the source only reads string titles from this
site).  The document side carries the stripped text of the first h1 element
and of the title element, when those elements exist (their text may be the
empty string). -/

structure PostProps where
  title : Option String := none
deriving Repr, DecidableEq

structure PageProps where
  post : Option PostProps := none
  article : Option PostProps := none
deriving Repr, DecidableEq

structure PageDoc where
  h1 : Option String := none
  titleTag : Option String := none
deriving Repr, DecidableEq

/-- The embedded-state part of the chain: post title when the post dict has a
title key, else article title. -/
def embeddedTitle (pp : PageProps) : Option String :=
  match pp.post.bind PostProps.title with
  | some t => some t
  | none => pp.article.bind PostProps.title

/-- ArticleScraper._extract_title. -/
def extractTitle (pp : PageProps) (doc : PageDoc) : String :=
  match pp.post.bind PostProps.title with
  | some t => t
  | none =>
    match pp.article.bind PostProps.title with
    | some t => t
    | none =>
      match doc.h1 with
      | some h => h
      | none =>
        match doc.titleTag with
        | some t => t
        | none => "Untitled"

/-! ## Stored-session validity (AuthService.has_valid_session)

The session file holds JSON; the expires_at key may hold a number (token
sessions write a numeric timestamp) or a string (cookie sessions write an
ISO datetime).  datetime values are modelled as integers; the library calls
datetime.fromisoformat and datetime.now enter as the parseIsoDT function
and the now argument.  A number that a path compares against the clock is
compared as an integer; where Python would raise a TypeError (comparing a
float against a string, or parsing a number as an ISO string) the model
returns what the surrounding except handler returns. -/

inductive JsonVal where
  | num (n : Int)
  | str (s : String)
deriving Repr, DecidableEq

structure SessionData where
  authType : Option String := none
  expiresAt : Option JsonVal := none
  email : Option String := none
deriving Repr, DecidableEq

inductive SessionFileState where
  | missing
  | unreadable
  | stored (d : SessionData)
deriving Repr, DecidableEq

/-- AuthService.has_valid_session. -/
def hasValidSession (file : SessionFileState) (parseIsoDT : String → Option Int)
    (now : Int) : Bool × Option String :=
  match file with
  | .missing => (false, none)
  | .unreadable => (false, none)
  | .stored d =>
    if d.authType == some "token" then
      match d.expiresAt with
      | some (.num n) => if n != 0 && now > n then (false, none) else (true, d.email)
      | some (.str s) =>
        -- a truthy string expiry makes now.timestamp() > expires_at raise a
        -- TypeError, caught by the outer except which returns (False, None)
        if s != "" then (false, none) else (true, d.email)
      | none => (true, d.email)
    else
      match d.expiresAt with
      | some (.str s) =>
        if s != "" then
          match parseIsoDT s with
          | some t => if now > t then (false, none) else (true, d.email)
          | none => (true, d.email)
        else (true, d.email)
      | some (.num _) =>
        -- fromisoformat of a number raises a TypeError, caught by the inner
        -- except which passes through to the valid return
        (true, d.email)
      | none => (true, d.email)

/-! ## The relational rows (src/database/models.py)

Dates are integers (a day number); datetimes are a day plus a second-of-day,
so that the .date() projection of the source is a field projection here. -/

structure Timestamp where
  day : Int
  secOfDay : Nat := 0
deriving Repr, DecidableEq

structure ScrapeSessionRow where
  id : Nat
  startedAt : Int
  finishedAt : Option Int := none
  targetDate : Int
  status : String
  articlesFound : Nat := 0
  articlesScraped : Nat := 0
  articlesSuccess : Nat := 0
  articlesFailed : Nat := 0
  articlesNew : Nat := 0
  articlesUpdated : Nat := 0
  articlesSkipped : Nat := 0
  errorMessage : Option String := none
deriving Repr, DecidableEq

structure ArticleRow where
  id : Nat
  sgeId : String
  url : String := ""
  slug : String := ""
  title : String := ""
  subtitle : Option String := none
  content : Option String := none
  contentText : Option String := none
  category : Option String := none
  tags : Option (List String) := none
  authorName : Option String := none
  authorEmail : Option String := none
  featuredImageUrl : Option String := none
  readTime : Option String := none
  publishedAt : Option Timestamp := none
  rawJson : Option String := none
  updatedAt : Option Int := none
deriving Repr, DecidableEq

structure SocialContentRow where
  articleId : Nat
  platform : String
  contentType : String
  url : Option String := none
  embedHtml : Option String := none
  thumbnailUrl : Option String := none
  username : Option String := none
  caption : Option String := none
  positionInArticle : Nat := 0
  extraData : Option (List (String × String)) := none
deriving Repr, DecidableEq

structure Db where
  sessions : List ScrapeSessionRow := []
  articles : List ArticleRow := []
  socialContents : List SocialContentRow := []
  nextSessionId : Nat := 0
  nextArticleId : Nat := 0
deriving Repr, DecidableEq

/-! ## Session record store (src/services/session_service.py) -/

/-- The session rows SessionService.get_session_for_date queries: matching
target date, completed, with at least one successful article. -/
def sessionMatchesDate (d : Int) (s : ScrapeSessionRow) : Bool :=
  s.targetDate == d && s.status == "completed" && s.articlesSuccess > 0

/-- One comparison step of the order_by started_at desc query plan. -/
def latestStep (best : Option ScrapeSessionRow) (s : ScrapeSessionRow) :
    Option ScrapeSessionRow :=
  match best with
  | none => some s
  | some b => if s.startedAt > b.startedAt then some s else some b

/-- order_by started_at desc then first: the first row of maximal
started_at among the matching rows. -/
def latestOf (rows : List ScrapeSessionRow) : Option ScrapeSessionRow :=
  rows.foldl latestStep none

/-- SessionService.get_session_for_date. -/
def getSessionForDate (db : Db) (d : Int) : Option ScrapeSessionRow :=
  latestOf (db.sessions.filter (sessionMatchesDate d))

/-- SessionService.has_successful_scrape_for_date. -/
def hasSuccessfulScrapeForDate (db : Db) (d : Int) : Bool :=
  (getSessionForDate db d).isSome

/-- SessionService.create_session. -/
def createSession (db : Db) (now : Int) (targetDate : Int) : ScrapeSessionRow × Db :=
  let row : ScrapeSessionRow :=
    { id := db.nextSessionId, startedAt := now, targetDate := targetDate,
      status := "running" }
  (row, { db with sessions := db.sessions ++ [row],
                  nextSessionId := db.nextSessionId + 1 })

/-- SessionService.update_session restricted to the one call the orchestrator
makes before the loop (articles_found only). -/
def updateSessionFound (db : Db) (sid : Nat) (found : Nat) : Db :=
  { db with sessions := db.sessions.map fun s =>
      if s.id == sid then { s with articlesFound := found } else s }

/-- SessionService.complete_session. -/
def completeSession (db : Db) (sid : Nat) (now : Int)
    (found scraped success failed newC updatedC skippedC : Nat) : Db :=
  { db with sessions := db.sessions.map fun s =>
      if s.id == sid then
        { s with status := "completed", finishedAt := some now,
                 articlesFound := found, articlesScraped := scraped,
                 articlesSuccess := success, articlesFailed := failed,
                 articlesNew := newC, articlesUpdated := updatedC,
                 articlesSkipped := skippedC }
      else s }

/-! ## The article dictionary produced by the per-URL scrape
(src/scraper/sync_scraper.py output, consumed by ScrapeService) -/

structure SocialDict where
  platform : Option String := none
  contentType : Option String := none
  url : Option String := none
  embedHtml : Option String := none
  thumbnailUrl : Option String := none
  username : Option String := none
  caption : Option String := none
  positionInArticle : Option Nat := none
  stats : Option String := none
  videoId : Option String := none
  embedId : Option String := none
deriving Repr, DecidableEq

structure ArticleDict where
  sgeId : Option String := none
  url : Option String := none
  slug : Option String := none
  title : Option String := none
  subtitle : Option String := none
  content : Option String := none
  contentText : Option String := none
  category : Option String := none
  tags : Option (List String) := none
  authorName : Option String := none
  authorEmail : Option String := none
  featuredImageUrl : Option String := none
  readTime : Option String := none
  publishedAt : Option String := none
  rawJson : Option String := none
  socialContents : List SocialDict := []
deriving Repr, DecidableEq

/-- The ArticleData dataclass (src/scraper/article_scraper.py). -/
structure ArticleData where
  sgeId : String
  url : String
  slug : String
  title : String
  subtitle : Option String := none
  content : Option String := none
  contentText : Option String := none
  category : Option String := none
  tags : Option (List String) := none
  authorName : Option String := none
  authorEmail : Option String := none
  featuredImageUrl : Option String := none
  readTime : Option String := none
  publishedAt : Option Timestamp := none
  rawJson : Option String := none
deriving Repr, DecidableEq

/-- The published_at parse the orchestrator performs on the dictionary:
datetime.fromisoformat inside try/except, on a truthy string only.
parseIso is the library parse. -/
def parsePublishedAt (parseIso : String → Option Timestamp)
    (d : ArticleDict) : Option Timestamp :=
  match d.publishedAt with
  | some s => if s != "" then parseIso s else none
  | none => none

/-- ScrapeService._dict_to_article_data. -/
def dictToArticleData (parseIso : String → Option Timestamp)
    (d : ArticleDict) : ArticleData :=
  { sgeId := d.sgeId.getD "", url := d.url.getD "", slug := d.slug.getD "",
    title := d.title.getD "", subtitle := d.subtitle, content := d.content,
    contentText := d.contentText, category := d.category, tags := d.tags,
    authorName := d.authorName, authorEmail := d.authorEmail,
    featuredImageUrl := d.featuredImageUrl, readTime := d.readTime,
    publishedAt := parsePublishedAt parseIso d, rawJson := d.rawJson }

/-- ScrapeService._is_article_for_date: no published date counts as valid. -/
def isArticleForDate (ad : ArticleData) (targetDate : Int) : Bool :=
  match ad.publishedAt with
  | none => true
  | some ts => ts.day == targetDate

/-! ## Article persistence (ScrapeService._save_article_from_dict) -/

/-- The extra_data dictionary built for one social content row. -/
def buildExtraData (sc : SocialDict) : Option (List (String × String)) :=
  let entries :=
    (match sc.stats with
     | some s => if s != "" then [("stats", s)] else []
     | none => []) ++
    (match sc.videoId with
     | some v => if v != "" then [("video_id", v)] else []
     | none => []) ++
    (match sc.embedId with
     | some e => if e != "" then [("embed_id", e)] else []
     | none => [])
  if entries.isEmpty then none else some entries

/-- One row of ScrapeService._add_social_contents_from_dict. -/
def socialRowOfDict (articleId : Nat) (sc : SocialDict) : SocialContentRow :=
  { articleId := articleId, platform := sc.platform.getD "unknown",
    contentType := sc.contentType.getD "unknown", url := sc.url,
    embedHtml := sc.embedHtml, thumbnailUrl := sc.thumbnailUrl,
    username := sc.username, caption := sc.caption,
    positionInArticle := sc.positionInArticle.getD 0,
    extraData := buildExtraData sc }

/-- Replace the first list element satisfying p (the row the update call
mutates). -/
def replaceFirst (p : ArticleRow → Bool) (r : ArticleRow) : List ArticleRow → List ArticleRow
  | [] => []
  | x :: xs => if p x then r :: xs else x :: replaceFirst p r xs

/-- The updated article row (the field assignments of the update branch;
sge_id is not reassigned). -/
def updatedArticle (a : ArticleRow) (d : ArticleDict) (pub : Option Timestamp)
    (now : Int) : ArticleRow :=
  { a with url := d.url.getD "", slug := d.slug.getD "", title := d.title.getD "",
           subtitle := d.subtitle, content := d.content,
           contentText := d.contentText, category := d.category, tags := d.tags,
           authorName := d.authorName, authorEmail := d.authorEmail,
           featuredImageUrl := d.featuredImageUrl, readTime := d.readTime,
           publishedAt := pub, rawJson := d.rawJson, updatedAt := some now }

/-- The freshly created article row of the insert branch. -/
def newArticle (id : Nat) (sgeId : String) (d : ArticleDict)
    (pub : Option Timestamp) : ArticleRow :=
  { id := id, sgeId := sgeId, url := d.url.getD "", slug := d.slug.getD "",
    title := d.title.getD "", subtitle := d.subtitle, content := d.content,
    contentText := d.contentText, category := d.category, tags := d.tags,
    authorName := d.authorName, authorEmail := d.authorEmail,
    featuredImageUrl := d.featuredImageUrl, readTime := d.readTime,
    publishedAt := pub, rawJson := d.rawJson }

/-- ScrapeService._save_article_from_dict: update the first article with the
same sge_id, replacing its whole social content set, or insert a new one.
Returns (is_new, the database after). -/
def saveArticleFromDict (now : Int) (parseIso : String → Option Timestamp)
    (db : Db) (d : ArticleDict) : Bool × Db :=
  let sgeId := d.sgeId.getD ""
  let pub := parsePublishedAt parseIso d
  match db.articles.find? (fun a => a.sgeId == sgeId) with
  | some existing =>
    let articles2 :=
      replaceFirst (fun a => a.sgeId == sgeId) (updatedArticle existing d pub now)
        db.articles
    -- _update_social_contents_from_dict: delete all rows of the article,
    -- then add the new ones
    let socials2 :=
      db.socialContents.filter (fun sc => !(sc.articleId == existing.id)) ++
        d.socialContents.map (socialRowOfDict existing.id)
    (false, { db with articles := articles2, socialContents := socials2 })
  | none =>
    let article := newArticle db.nextArticleId sgeId d pub
    (true, { db with
        articles := db.articles ++ [article],
        socialContents :=
          db.socialContents ++ d.socialContents.map (socialRowOfDict db.nextArticleId),
        nextArticleId := db.nextArticleId + 1 })

/-! ## Slug extraction (SitemapParser.extract_slug_from_url) -/

/-- Python str.replace: remove every occurrence of pat (left to right,
non-overlapping), with a length fuel for termination. -/
def removeOccur (pat : List Char) : Nat → List Char → List Char
  | 0, l => l
  | _ + 1, [] => []
  | fuel + 1, l@(c :: rest) =>
    if pat.isPrefixOf l then removeOccur pat fuel (l.drop pat.length)
    else c :: removeOccur pat fuel rest

/-- url.replace(base_url, "").strip(slash). -/
def extractSlugFromUrl (baseUrl url : String) : String :=
  let removed :=
    if baseUrl.isEmpty then url.toList
    else removeOccur baseUrl.toList url.toList.length url.toList
  String.mk (((removed.dropWhile (· == '/')).reverse.dropWhile (· == '/')).reverse)

/-! ## The scrape orchestrator (ScrapeService.run_scrape)

The ambient world of one run enters as an environment: the sitemap
discovery results, the session check, the per-URL render outcome
(scrape_article_sync in the worker process; none covers both a None return
and a raised exception, either of which the loop counts as failed), the
datetime parse, the configured base URL and the clock. -/

structure ScrapeEnv where
  dateUrls : List String
  allUrls : List String
  hasSession : Bool
  render : String → Option ArticleDict
  parseIso : String → Option Timestamp
  baseUrl : String
  now : Int

/-- The outcome dictionary of run_scrape, restricted to the keys the caller
reads: the status discriminator and its payload. -/
inductive RunStatus where
  | skipped (sessionId : Option Nat) (articlesSuccess : Nat)
  | authRequired (sessionId : Nat)
  | completed (sessionId found scraped success failed newC updatedC skippedC : Nat)
deriving Repr, DecidableEq

structure RunOutcome where
  status : RunStatus
  db : Db
  rendered : List String
deriving Repr, DecidableEq

/-- The mutable state of the per-URL loop. -/
structure LoopAcc where
  scraped : Nat := 0
  success : Nat := 0
  failed : Nat := 0
  newC : Nat := 0
  updatedC : Nat := 0
  skippedC : Nat := 0
  db : Db
  rendered : List String := []
deriving Repr, DecidableEq

/-- One iteration of the per-URL loop of run_scrape: render, validate the
date, persist; a missing render result counts as failed. -/
def scrapeStep (env : ScrapeEnv) (targetDate : Int) (acc : LoopAcc)
    (url : String) : LoopAcc :=
  let acc := { acc with scraped := acc.scraped + 1, rendered := acc.rendered ++ [url] }
  match env.render url with
  | some d =>
    let ad := dictToArticleData env.parseIso d
    if !isArticleForDate ad targetDate then
      { acc with skippedC := acc.skippedC + 1 }
    else
      let (isNew, db2) := saveArticleFromDict env.now env.parseIso acc.db d
      let acc := { acc with db := db2, success := acc.success + 1 }
      if isNew then { acc with newC := acc.newC + 1 }
      else { acc with updatedC := acc.updatedC + 1 }
  | none => { acc with failed := acc.failed + 1 }

/-- ScrapeService.run_scrape. -/
def runScrape (env : ScrapeEnv) (limit : Option Nat) (targetDate : Int)
    (force : Bool) (db : Db) : RunOutcome :=
  if !force && hasSuccessfulScrapeForDate db targetDate then
    let existing := getSessionForDate db targetDate
    { status := .skipped (existing.map (·.id))
        (match existing with | some s => s.articlesSuccess | none => 0),
      db := db, rendered := [] }
  else
    let (sess, db1) := createSession db env.now targetDate
    let articleUrls := if env.dateUrls.isEmpty then env.allUrls else env.dateUrls
    let db2 := updateSessionFound db1 sess.id articleUrls.length
    let existingSlugs := db2.articles.map (·.slug)
    let newUrls :=
      articleUrls.filter fun u =>
        !(existingSlugs.contains (extractSlugFromUrl env.baseUrl u))
    -- new_urls[:limit] if limit else new_urls (a zero limit is falsy)
    let urlsToScrape :=
      match limit with
      | some l => if l == 0 then newUrls else newUrls.take l
      | none => newUrls
    if !env.hasSession then
      { status := .authRequired sess.id, db := db2, rendered := [] }
    else
      let finalAcc :=
        urlsToScrape.foldl (scrapeStep env targetDate) { db := db2 }
      let db3 :=
        completeSession finalAcc.db sess.id env.now articleUrls.length
          finalAcc.scraped finalAcc.success finalAcc.failed finalAcc.newC
          finalAcc.updatedC finalAcc.skippedC
      { status := .completed sess.id articleUrls.length finalAcc.scraped
          finalAcc.success finalAcc.failed finalAcc.newC finalAcc.updatedC
          finalAcc.skippedC,
        db := db3, rendered := finalAcc.rendered }

/-! ## Statement-level helpers -/

/-- The url values a list of social contents carries. -/
def urlsOf (l : List SocialContentData) : List String :=
  l.filterMap SocialContentData.url

/-- The rank of a platform in the fixed extraction order of extract_all. -/
def platRank : String → Nat
  | "tiktok" => 0
  | "instagram" => 1
  | "twitter" => 2
  | "youtube" => 3
  | _ => 5

/-- The category rank of one reference in extract_all order: the four
platform passes in order, then the screenshot pass. -/
def catRank (c : SocialContentData) : Nat :=
  if c.contentType == "screenshot" then 4 else platRank c.platform

/-- catRank through the (platform, contentType) projection. -/
def catRankP (pr : String × String) : Nat :=
  if pr.2 == "screenshot" then 4 else platRank pr.1

/-- The (platform, contentType, url) projection, which withPositions leaves
untouched. -/
def projPCU (c : SocialContentData) : String × String × Option String :=
  (c.platform, c.contentType, c.url)

/-- The invariant bundle one platform-strategy loop establishes: its outputs
carry the platform and one of the listed content types, their url values are
distinct, fresh with respect to the incoming seen set and recorded in the
outgoing seen set, and the seen set only grows. -/
abbrev LoopSpec (platform : String) (ctypes : List String) (seen : List String)
    (out : List SocialContentData × List String) : Prop :=
  (∀ c ∈ out.1, c.platform = platform ∧ c.contentType ∈ ctypes) ∧
  (urlsOf out.1).Nodup ∧
  (∀ u ∈ urlsOf out.1, u ∉ seen ∧ u ∈ out.2) ∧
  (∀ u ∈ seen, u ∈ out.2)

/-- A YouTube url is accounted for by the loop state: either it is in the
seen set, or it is the canonical watch URL of a recorded video id. -/
abbrev ytCovered (seen ids : List String) (u : String) : Prop :=
  u ∈ seen ∨ ∃ v, v ≠ "" ∧ v ∈ ids ∧ u = watchUrl v ∧
    extractYoutubeVideoId u = some v

/-- The seen/ids coupling of the YouTube loops: whenever a seen url has an
extractable video id, that id is recorded. -/
abbrev ytSeenIds (seen ids : List String) : Prop :=
  ∀ u ∈ seen, ∀ v, extractYoutubeVideoId u = some v → v ∈ ids

/-- The invariant bundle a YouTube strategy loop establishes.  The url parts
are conditional on the seen/ids coupling of the incoming state. -/
abbrev YtLoopSpec (ctypes : List String) (seen ids : List String)
    (out : List SocialContentData × List String × List String) : Prop :=
  (∀ c ∈ out.1, c.platform = "youtube" ∧ c.contentType ∈ ctypes) ∧
  (ytSeenIds seen ids →
    (urlsOf out.1).Nodup ∧
    (∀ u ∈ urlsOf out.1, ¬ ytCovered seen ids u ∧ ytCovered out.2.1 out.2.2 u) ∧
    (∀ u, ytCovered seen ids u → ytCovered out.2.1 out.2.2 u) ∧
    ytSeenIds out.2.1 out.2.2)

/-! ## Concrete sample values (used by witnesses and counterexamples) -/

def sampleArticle : ArticleRow := { id := 0, sgeId := "a1", slug := "a1" }

def sampleDb : Db := { articles := [sampleArticle], nextArticleId := 1 }

def sampleSocial : SocialDict :=
  { platform := some "tiktok", contentType := some "video",
    url := some "https://t.example/v" }

def sampleDict : ArticleDict :=
  { sgeId := some "a1", url := some "https://s.example/x", slug := some "a1",
    title := some "T", publishedAt := some "d15", socialContents := [sampleSocial] }

def sampleParse : String → Option Timestamp :=
  fun s => if s == "d15" then some { day := 15 } else none

def sampleEnv : ScrapeEnv :=
  { dateUrls := ["https://s.example/x"], allUrls := [], hasSession := true,
    render := fun _ => some sampleDict, parseIso := sampleParse,
    baseUrl := "https://s.example", now := 9 }

def emptyEnv : ScrapeEnv :=
  { dateUrls := [], allUrls := [], hasSession := true, render := fun _ => none,
    parseIso := fun _ => none, baseUrl := "", now := 0 }

def sampleSession : ScrapeSessionRow :=
  { id := 3, startedAt := 50, targetDate := 15, status := "completed",
    articlesSuccess := 2 }

def sampleSessionDb : Db := { sessions := [sampleSession] }

def fditerEmpty : String → String → List String := fun _ _ => []

def dupHref : String := "https://instagram.com/p/abc.x.com/a/status/1"

def dupSoup : Soup := { anchors := [{ href := some dupHref, text := "link" }] }

def sampleBq : BlockquoteEl :=
  { classes := ["tiktok-embed"], dataVideoId := some "123" }

def sampleBqSoup : Soup := { blockquotes := [sampleBq] }

/-! # Theorems -/

/-! ## C10: stored-session validity -/

/-- C10 counterexample: a token session whose expires_at timestamp is 0 lies
in the past (0 < now = 100), yet has_valid_session reports it valid with the
stored email, because Python treats the 0 timestamp as falsy and skips the
expiry comparison.  The claim requires (False, None) for every past
expires_at. -/
theorem hasValidSession_zero_expiry_counterexample :
    ((0 : Int) < 100) ∧
      hasValidSession
        (SessionFileState.stored
          { authType := some "token", expiresAt := some (JsonVal.num 0),
            email := some "user@site" })
        (fun _ => none) 100 = (true, some "user@site") :=
  ⟨by decide, rfl⟩

/-- C10 (amended): has_valid_session returns (False, None) for a missing
file, for a token session with a nonzero numeric expires_at in the past, and
for a cookie session whose truthy expires_at string parses to a past
datetime; a cookie session whose expires_at is absent or fails to parse is
reported valid with the stored email.  (Amendment: a token expires_at equal
to 0 is falsy in Python and is treated as absent rather than expired.) -/
theorem hasValidSession_spec (parse : String → Option Int) (now : Int)
    (d : SessionData) :
    hasValidSession SessionFileState.missing parse now = (false, none) ∧
    (∀ n : Int, d.authType = some "token" → d.expiresAt = some (JsonVal.num n) →
      n ≠ 0 → now > n →
      hasValidSession (SessionFileState.stored d) parse now = (false, none)) ∧
    (∀ s t, d.authType ≠ some "token" → d.expiresAt = some (JsonVal.str s) →
      s ≠ "" → parse s = some t → now > t →
      hasValidSession (SessionFileState.stored d) parse now = (false, none)) ∧
    (d.authType ≠ some "token" → d.expiresAt = none →
      hasValidSession (SessionFileState.stored d) parse now = (true, d.email)) ∧
    (∀ s, d.authType ≠ some "token" → d.expiresAt = some (JsonVal.str s) →
      s ≠ "" → parse s = none →
      hasValidSession (SessionFileState.stored d) parse now = (true, d.email)) := by
  refine ⟨rfl, ?_, ?_, ?_, ?_⟩
  · intro n ha he hn hlt
    simp [hasValidSession, ha, he, hn, hlt]
  · intro s t ha he hs hp hlt
    simp [hasValidSession, ha, he, hs, hp, hlt]
  · intro ha he
    simp [hasValidSession, ha, he]
  · intro s ha he hs hp
    simp [hasValidSession, ha, he, hs, hp]

/-- C10 witness: a cookie session with no expires_at field is reported valid
with its email. -/
theorem hasValidSession_spec_witness :
    hasValidSession (SessionFileState.stored { email := some "a" }) (fun _ => none) 7 =
      (true, some "a") :=
  (hasValidSession_spec (fun _ => none) 7 { email := some "a" }).2.2.2.1
    (by simp) rfl

/-! ## C8: the title fallback chain -/

/-- C8 counterexample: a page whose embedded state carries an empty post
title yields the empty extracted title, refuting the non-emptiness part of
the claim (the chain returns the embedded title verbatim). -/
theorem extractTitle_empty_counterexample :
    extractTitle { post := some { title := some "" } } {} = "" := rfl

/-- C8 (amended): the extracted title is the first hit of the fallback
chain, embedded-state title (post.title, else article.title), else the first
h1 text, else the title-element text, else the literal Untitled; the result
can be empty when that first hit is the empty string (non-emptiness is not
guaranteed). -/
theorem extractTitle_chain (pp : PageProps) (doc : PageDoc) :
    (∀ t, embeddedTitle pp = some t → extractTitle pp doc = t) ∧
    (embeddedTitle pp = none → ∀ h, doc.h1 = some h → extractTitle pp doc = h) ∧
    (embeddedTitle pp = none → doc.h1 = none → ∀ t, doc.titleTag = some t →
      extractTitle pp doc = t) ∧
    (embeddedTitle pp = none → doc.h1 = none → doc.titleTag = none →
      extractTitle pp doc = "Untitled") := by
  unfold embeddedTitle extractTitle
  cases hp : pp.post.bind PostProps.title with
  | some t => simp
  | none =>
    cases ha : pp.article.bind PostProps.title with
    | some t => simp
    | none =>
      cases hh : doc.h1 with
      | some h => simp
      | none =>
        cases ht : doc.titleTag with
        | some t => simp
        | none => simp

/-- C8 witness: a present embedded post title is returned as the title. -/
theorem extractTitle_chain_witness :
    embeddedTitle { post := some { title := some "Talk" } } = some "Talk" ∧
      extractTitle { post := some { title := some "Talk" } } {} = "Talk" :=
  ⟨rfl, (extractTitle_chain { post := some { title := some "Talk" } } {}).1 "Talk" rfl⟩

/-! ## C4: upsert keyed by sge_id with full social replacement -/

lemma length_replaceFirst (p : ArticleRow → Bool) (r : ArticleRow) :
    ∀ l : List ArticleRow, (replaceFirst p r l).length = l.length := by
  intro l
  induction l with
  | nil => rfl
  | cons x xs ih =>
    by_cases hx : p x <;> simp [replaceFirst, hx, ih]

lemma countP_replaceFirst (p : ArticleRow → Bool) (r : ArticleRow)
    (hr : p r = true) :
    ∀ l : List ArticleRow, (replaceFirst p r l).countP p = l.countP p := by
  intro l
  induction l with
  | nil => rfl
  | cons x xs ih =>
    by_cases hx : p x
    · simp [replaceFirst, hx, List.countP_cons, hr]
    · simp [replaceFirst, hx, List.countP_cons, ih]

lemma filter_after_filter_not (i : Nat) (l : List SocialContentRow) :
    (l.filter (fun sc => !(sc.articleId == i))).filter (fun sc => sc.articleId == i) =
      [] := by
  induction l with
  | nil => rfl
  | cons x xs ih =>
    by_cases hx : (x.articleId == i) = true <;>
      simp [List.filter_cons, hx, ih]

lemma filter_socialRows (i : Nat) (scs : List SocialDict) :
    ((scs.map (socialRowOfDict i)).filter (fun sc => sc.articleId == i)) =
      scs.map (socialRowOfDict i) := by
  refine List.filter_eq_self.mpr ?_
  intro sc hsc
  obtain ⟨s, _, rfl⟩ := List.mem_map.mp hsc
  simp [socialRowOfDict]

/-- C4: persisting an extracted record when an article with the same sge_id
exists updates in place, the save returns not-new, the number of articles
(and of articles with that sge_id) is unchanged, and the article's social
content set afterwards is exactly the newly extracted set; when no article
with that sge_id exists, the save returns new and exactly one article is
appended. -/
theorem saveArticleFromDict_upsert (now : Int)
    (parseIso : String → Option Timestamp) (db : Db) (d : ArticleDict) :
    (∀ a, db.articles.find? (fun x => x.sgeId == d.sgeId.getD "") = some a →
      (saveArticleFromDict now parseIso db d).1 = false ∧
      (saveArticleFromDict now parseIso db d).2.articles.length =
        db.articles.length ∧
      (saveArticleFromDict now parseIso db d).2.articles.countP
          (fun x => x.sgeId == d.sgeId.getD "") =
        db.articles.countP (fun x => x.sgeId == d.sgeId.getD "") ∧
      (saveArticleFromDict now parseIso db d).2.socialContents.filter
          (fun sc => sc.articleId == a.id) =
        d.socialContents.map (socialRowOfDict a.id)) ∧
    (db.articles.find? (fun x => x.sgeId == d.sgeId.getD "") = none →
      (saveArticleFromDict now parseIso db d).1 = true ∧
      (saveArticleFromDict now parseIso db d).2.articles =
        db.articles ++ [newArticle db.nextArticleId (d.sgeId.getD "") d
          (parsePublishedAt parseIso d)]) := by
  constructor
  · intro a hfind
    have hkey := List.find?_some hfind
    have hupd : ((updatedArticle a d (parsePublishedAt parseIso d) now).sgeId ==
        d.sgeId.getD "") = true := hkey
    have hsave : saveArticleFromDict now parseIso db d =
        (false, { db with
          articles := replaceFirst (fun x => x.sgeId == d.sgeId.getD "")
            (updatedArticle a d (parsePublishedAt parseIso d) now) db.articles,
          socialContents :=
            db.socialContents.filter (fun sc => !(sc.articleId == a.id)) ++
              d.socialContents.map (socialRowOfDict a.id) }) := by
      simp only [saveArticleFromDict, hfind]
    rw [hsave]
    refine ⟨rfl, length_replaceFirst _ _ _, countP_replaceFirst _ _ hupd _, ?_⟩
    rw [List.filter_append, filter_after_filter_not, filter_socialRows]
    rfl
  · intro hfind
    have hsave : saveArticleFromDict now parseIso db d =
        (true, { db with
          articles := db.articles ++ [newArticle db.nextArticleId (d.sgeId.getD "")
            d (parsePublishedAt parseIso d)],
          socialContents := db.socialContents ++
            d.socialContents.map (socialRowOfDict db.nextArticleId),
          nextArticleId := db.nextArticleId + 1 }) := by
      simp only [saveArticleFromDict, hfind]
    rw [hsave]
    exact ⟨rfl, rfl⟩

/-- C4 witness: re-saving a record whose sge_id is already stored returns
not-new and keeps a single article row. -/
theorem saveArticleFromDict_upsert_witness :
    (saveArticleFromDict 9 sampleParse sampleDb sampleDict).1 = false ∧
    (saveArticleFromDict 9 sampleParse sampleDb sampleDict).2.articles.length = 1 ∧
    (saveArticleFromDict 9 sampleParse sampleDb sampleDict).2.socialContents.filter
        (fun sc => sc.articleId == 0) =
      [socialRowOfDict 0 sampleSocial] := by
  have h :=
    (saveArticleFromDict_upsert 9 sampleParse sampleDb sampleDict).1 sampleArticle
      (by rfl)
  exact ⟨h.1, h.2.1.trans (by rfl), h.2.2.2.trans (by rfl)⟩

/-! ## C5: per-article date validation -/

/-- C5: for a URL whose render yields an article dictionary, the loop body
persists the article (and counts it successful) exactly when the parsed
published date has the target day, or when the published date is absent or
unparseable (treated as valid); an article failing the date check only
increments the skipped counter and leaves the database unchanged. -/
theorem scrapeStep_date_validation (env : ScrapeEnv) (targetDate : Int)
    (acc : LoopAcc) (url : String) (d : ArticleDict)
    (hrender : env.render url = some d) :
    (∀ ts, (dictToArticleData env.parseIso d).publishedAt = some ts →
      ts.day = targetDate →
      (scrapeStep env targetDate acc url).db =
        (saveArticleFromDict env.now env.parseIso acc.db d).2 ∧
      (scrapeStep env targetDate acc url).success = acc.success + 1 ∧
      (scrapeStep env targetDate acc url).skippedC = acc.skippedC) ∧
    (∀ ts, (dictToArticleData env.parseIso d).publishedAt = some ts →
      ts.day ≠ targetDate →
      (scrapeStep env targetDate acc url).db = acc.db ∧
      (scrapeStep env targetDate acc url).skippedC = acc.skippedC + 1 ∧
      (scrapeStep env targetDate acc url).success = acc.success ∧
      (scrapeStep env targetDate acc url).failed = acc.failed) ∧
    ((dictToArticleData env.parseIso d).publishedAt = none →
      (scrapeStep env targetDate acc url).db =
        (saveArticleFromDict env.now env.parseIso acc.db d).2 ∧
      (scrapeStep env targetDate acc url).success = acc.success + 1) := by
  refine ⟨?_, ?_, ?_⟩
  · intro ts hts hday
    have hvalid : isArticleForDate (dictToArticleData env.parseIso d) targetDate =
        true := by
      simp [isArticleForDate, hts, hday]
    simp only [scrapeStep, hrender, hvalid, Bool.not_true, Bool.false_eq_true,
      if_false]
    cases hsave : saveArticleFromDict env.now env.parseIso acc.db d with
    | mk isNew db2 => cases isNew <;> simp [hsave]
  · intro ts hts hday
    have hvalid : isArticleForDate (dictToArticleData env.parseIso d) targetDate =
        false := by
      simp [isArticleForDate, hts, hday]
    simp [scrapeStep, hrender, hvalid]
  · intro hts
    have hvalid : isArticleForDate (dictToArticleData env.parseIso d) targetDate =
        true := by
      simp [isArticleForDate, hts]
    simp only [scrapeStep, hrender, hvalid, Bool.not_true, Bool.false_eq_true,
      if_false]
    cases hsave : saveArticleFromDict env.now env.parseIso acc.db d with
    | mk isNew db2 => cases isNew <;> simp [hsave]

/-- C5 witness: an article published on day 15 is persisted by the loop body
when the target date is 15. -/
theorem scrapeStep_date_validation_witness :
    (scrapeStep sampleEnv 15 { db := sampleDb } "https://s.example/x").success = 1 ∧
    (scrapeStep sampleEnv 15 { db := sampleDb } "https://s.example/x").db =
      (saveArticleFromDict 9 sampleParse sampleDb sampleDict).2 := by
  have h :=
    ((scrapeStep_date_validation sampleEnv 15 { db := sampleDb }
        "https://s.example/x" sampleDict rfl).1 { day := 15 } (by rfl) rfl)
  exact ⟨h.2.1.trans (by rfl), h.1⟩

/-! ## C1: the idempotency gate -/

lemma foldl_latestStep_isSome (rows : List ScrapeSessionRow) :
    ∀ b : ScrapeSessionRow, (rows.foldl latestStep (some b)).isSome := by
  induction rows with
  | nil => intro b; rfl
  | cons r rest ih =>
    intro b
    show (rest.foldl latestStep (latestStep (some b) r)).isSome
    by_cases hc : r.startedAt > b.startedAt
    · rw [show latestStep (some b) r = some r by simp [latestStep, hc]]
      exact ih r
    · rw [show latestStep (some b) r = some b by simp [latestStep, hc]]
      exact ih b

lemma latestOf_isSome {rows : List ScrapeSessionRow} (h : rows ≠ []) :
    (latestOf rows).isSome := by
  cases rows with
  | nil => exact absurd rfl h
  | cons r rest =>
    show (rest.foldl latestStep (latestStep none r)).isSome
    exact foldl_latestStep_isSome rest r

lemma foldl_latestStep_mem (c : ScrapeSessionRow) :
    ∀ (rows : List ScrapeSessionRow) (acc : Option ScrapeSessionRow),
      rows.foldl latestStep acc = some c → acc = some c ∨ c ∈ rows := by
  intro rows
  induction rows with
  | nil => intro acc h; exact Or.inl h
  | cons r rest ih =>
    intro acc h
    rcases ih (latestStep acc r) h with h2 | h2
    · cases acc with
      | none =>
        simp only [latestStep] at h2
        right
        simp [Option.some.injEq] at h2
        simp [h2]
      | some b =>
        simp only [latestStep] at h2
        by_cases hc : r.startedAt > b.startedAt
        · rw [if_pos hc] at h2
          right
          simp only [Option.some.injEq] at h2
          simp [h2]
        · rw [if_neg hc] at h2
          exact Or.inl h2
    · exact Or.inr (List.mem_cons_of_mem _ h2)

lemma latestOf_mem {rows : List ScrapeSessionRow} {c : ScrapeSessionRow}
    (h : latestOf rows = some c) : c ∈ rows := by
  rcases foldl_latestStep_mem c rows none h with h2 | h2
  · exact absurd h2 (by simp)
  · exact h2

/-- C1: with force off, when the database holds a completed session with
articlesSuccess above zero for the target date, run_scrape returns skipped
carrying the id and success count of the session get_session_for_date
selects, renders no URL, and leaves the database (in particular the session
table) unchanged. -/
theorem runScrape_idempotency_gate (env : ScrapeEnv) (limit : Option Nat)
    (targetDate : Int) (db : Db)
    (h : ∃ s ∈ db.sessions, s.targetDate = targetDate ∧ s.status = "completed" ∧
      0 < s.articlesSuccess) :
    ∃ e, getSessionForDate db targetDate = some e ∧ e ∈ db.sessions ∧
      e.targetDate = targetDate ∧ e.status = "completed" ∧ 0 < e.articlesSuccess ∧
      runScrape env limit targetDate false db =
        { status := RunStatus.skipped (some e.id) e.articlesSuccess, db := db,
          rendered := [] } := by
  obtain ⟨s, hs, hd, hst, hsucc⟩ := h
  have hmem : s ∈ db.sessions.filter (sessionMatchesDate targetDate) := by
    refine List.mem_filter.mpr ⟨hs, ?_⟩
    simp [sessionMatchesDate, hd, hst, hsucc]
  have hne : db.sessions.filter (sessionMatchesDate targetDate) ≠ [] := by
    intro hnil
    rw [hnil] at hmem
    exact absurd hmem (List.not_mem_nil s)
  obtain ⟨e, he⟩ := Option.isSome_iff_exists.mp (latestOf_isSome hne)
  have hget : getSessionForDate db targetDate = some e := he
  have hmem2 := latestOf_mem he
  obtain ⟨hes, hprop⟩ := List.mem_filter.mp hmem2
  have hprops : e.targetDate = targetDate ∧ e.status = "completed" ∧
      0 < e.articlesSuccess := by
    simpa [sessionMatchesDate, and_assoc] using hprop
  refine ⟨e, hget, hes, hprops.1, hprops.2.1, hprops.2.2, ?_⟩
  have hservice : hasSuccessfulScrapeForDate db targetDate = true := by
    simp [hasSuccessfulScrapeForDate, hget]
  simp only [runScrape, hservice, Bool.not_false, Bool.true_and, if_true, hget]
  rfl

/-- C1 witness: a database holding one completed session with two successful
articles for day 15 makes run_scrape skip without rendering. -/
theorem runScrape_idempotency_gate_witness :
    (runScrape emptyEnv none 15 false sampleSessionDb).rendered = [] ∧
    (runScrape emptyEnv none 15 false sampleSessionDb).db = sampleSessionDb ∧
    (runScrape emptyEnv none 15 false sampleSessionDb).status =
      RunStatus.skipped (some 3) 2 := by
  obtain ⟨e, hget, hmem, hdate, hst, hsucc, hrun⟩ :=
    runScrape_idempotency_gate emptyEnv none 15 sampleSessionDb
      ⟨sampleSession, by simp [sampleSessionDb], rfl, rfl, by decide⟩
  have he : e = sampleSession := by
    have h2 : getSessionForDate sampleSessionDb 15 = some sampleSession := by rfl
    rw [h2] at hget
    exact ((Option.some.injEq _ _).mp hget).symm
  rw [hrun, he]
  exact ⟨rfl, rfl, rfl⟩

/-! ## C2 and C3: counter identities of a completed run -/

lemma scrapeStep_eq_fail (env : ScrapeEnv) (t : Int) (acc : LoopAcc) (url : String)
    (h : env.render url = none) :
    scrapeStep env t acc url =
      { acc with scraped := acc.scraped + 1, failed := acc.failed + 1,
                 rendered := acc.rendered ++ [url] } := by
  unfold scrapeStep
  rw [h]

lemma scrapeStep_eq_skip (env : ScrapeEnv) (t : Int) (acc : LoopAcc) (url : String)
    (d : ArticleDict) (h : env.render url = some d)
    (hv : isArticleForDate (dictToArticleData env.parseIso d) t = false) :
    scrapeStep env t acc url =
      { acc with scraped := acc.scraped + 1, skippedC := acc.skippedC + 1,
                 rendered := acc.rendered ++ [url] } := by
  unfold scrapeStep
  rw [h]
  simp [hv]

lemma scrapeStep_eq_save (env : ScrapeEnv) (t : Int) (acc : LoopAcc) (url : String)
    (d : ArticleDict) (h : env.render url = some d)
    (hv : isArticleForDate (dictToArticleData env.parseIso d) t = true) :
    scrapeStep env t acc url =
      (if (saveArticleFromDict env.now env.parseIso acc.db d).1 then
        { acc with scraped := acc.scraped + 1, success := acc.success + 1,
                   newC := acc.newC + 1,
                   db := (saveArticleFromDict env.now env.parseIso acc.db d).2,
                   rendered := acc.rendered ++ [url] }
      else
        { acc with scraped := acc.scraped + 1, success := acc.success + 1,
                   updatedC := acc.updatedC + 1,
                   db := (saveArticleFromDict env.now env.parseIso acc.db d).2,
                   rendered := acc.rendered ++ [url] }) := by
  unfold scrapeStep
  rw [h]
  simp only [hv, Bool.not_true, Bool.false_eq_true, if_false]

lemma scrapeStep_scraped (env : ScrapeEnv) (t : Int) (acc : LoopAcc) (url : String) :
    (scrapeStep env t acc url).scraped = acc.scraped + 1 := by
  cases hr : env.render url with
  | none => rw [scrapeStep_eq_fail env t acc url hr]
  | some d =>
    by_cases hv : isArticleForDate (dictToArticleData env.parseIso d) t = true
    · rw [scrapeStep_eq_save env t acc url d hr hv]
      by_cases hn : (saveArticleFromDict env.now env.parseIso acc.db d).1 = true <;>
        simp [hn]
    · rw [scrapeStep_eq_skip env t acc url d hr (by simpa using hv)]

lemma scrapeStep_sfs (env : ScrapeEnv) (t : Int) (acc : LoopAcc) (url : String) :
    (scrapeStep env t acc url).success + (scrapeStep env t acc url).failed +
        (scrapeStep env t acc url).skippedC =
      acc.success + acc.failed + acc.skippedC + 1 := by
  cases hr : env.render url with
  | none => rw [scrapeStep_eq_fail env t acc url hr]; dsimp only; omega
  | some d =>
    by_cases hv : isArticleForDate (dictToArticleData env.parseIso d) t = true
    · rw [scrapeStep_eq_save env t acc url d hr hv]
      by_cases hn : (saveArticleFromDict env.now env.parseIso acc.db d).1 = true <;>
        simp [hn] <;> omega
    · rw [scrapeStep_eq_skip env t acc url d hr (by simpa using hv)]
      dsimp only
      omega

lemma scrapeStep_newupd (env : ScrapeEnv) (t : Int) (acc : LoopAcc) (url : String)
    (h : acc.success = acc.newC + acc.updatedC) :
    (scrapeStep env t acc url).success =
      (scrapeStep env t acc url).newC + (scrapeStep env t acc url).updatedC := by
  cases hr : env.render url with
  | none => rw [scrapeStep_eq_fail env t acc url hr]; simpa using h
  | some d =>
    by_cases hv : isArticleForDate (dictToArticleData env.parseIso d) t = true
    · rw [scrapeStep_eq_save env t acc url d hr hv]
      by_cases hn : (saveArticleFromDict env.now env.parseIso acc.db d).1 = true <;>
        simp [hn] <;> omega
    · rw [scrapeStep_eq_skip env t acc url d hr (by simpa using hv)]
      simpa using h

lemma scrapeLoop_scraped (env : ScrapeEnv) (t : Int) :
    ∀ (urls : List String) (acc : LoopAcc),
      (urls.foldl (scrapeStep env t) acc).scraped = acc.scraped + urls.length := by
  intro urls
  induction urls with
  | nil => intro acc; simp
  | cons u rest ih =>
    intro acc
    show (rest.foldl (scrapeStep env t) (scrapeStep env t acc u)).scraped = _
    rw [ih, scrapeStep_scraped]
    simp [Nat.add_assoc, Nat.add_comm 1]

lemma scrapeLoop_sfs (env : ScrapeEnv) (t : Int) :
    ∀ (urls : List String) (acc : LoopAcc),
      (urls.foldl (scrapeStep env t) acc).success +
          (urls.foldl (scrapeStep env t) acc).failed +
          (urls.foldl (scrapeStep env t) acc).skippedC =
        acc.success + acc.failed + acc.skippedC + urls.length := by
  intro urls
  induction urls with
  | nil => intro acc; simp
  | cons u rest ih =>
    intro acc
    rw [List.foldl_cons, ih (scrapeStep env t acc u), scrapeStep_sfs]
    simp only [List.length_cons]
    omega

lemma scrapeLoop_newupd (env : ScrapeEnv) (t : Int) :
    ∀ (urls : List String) (acc : LoopAcc),
      acc.success = acc.newC + acc.updatedC →
      (urls.foldl (scrapeStep env t) acc).success =
        (urls.foldl (scrapeStep env t) acc).newC +
          (urls.foldl (scrapeStep env t) acc).updatedC := by
  intro urls
  induction urls with
  | nil => intro acc h; simpa using h
  | cons u rest ih =>
    intro acc h
    exact ih (scrapeStep env t acc u) (scrapeStep_newupd env t acc u h)

lemma limitedLength (limit : Option Nat) (l : List String) :
    (match limit with
     | some k => if k == 0 then l else l.take k
     | none => l).length ≤ l.length := by
  cases limit with
  | none => exact Nat.le_refl _
  | some k =>
    by_cases hk : (k == 0) = true
    · simp [hk]
    · simp only [hk, Bool.false_eq_true, if_false]
      calc (l.take k).length = min k l.length := List.length_take k l
        _ ≤ l.length := Nat.min_le_right _ _

/-- C2 counterexample: a run over one URL whose article fails the date check
completes with articlesScraped = 1, articlesSuccess = 0, articlesFailed = 0
and articlesSkipped = 1, so articlesScraped differs from articlesSuccess +
articlesFailed: the skipped article IS counted in articlesScraped. -/
theorem runScrape_scraped_counterexample :
    (runScrape sampleEnv none 16 false {}).status =
        RunStatus.completed 0 1 1 0 0 0 0 1 ∧ (1 : Nat) ≠ 0 + 0 :=
  ⟨rfl, by decide⟩

/-- C2 (amended): for every run of run_scrape finalized as completed, the
recorded counters satisfy articlesScraped = articlesSuccess + articlesFailed
+ articlesSkipped: every processed URL is counted in scraped, and a
date-skipped article is counted in neither articlesSuccess nor
articlesFailed (it contributes to articlesSkipped alone). -/
theorem runScrape_completed_scraped (env : ScrapeEnv) (limit : Option Nat)
    (targetDate : Int) (force : Bool) (db : Db)
    (sid found scraped succ failed nw upd skp : Nat)
    (h : (runScrape env limit targetDate force db).status =
      RunStatus.completed sid found scraped succ failed nw upd skp) :
    scraped = succ + failed + skp := by
  simp only [runScrape] at h
  split at h
  · simp at h
  · split at h
    · simp at h
    · simp only [RunStatus.completed.injEq] at h
      obtain ⟨h1, h2, h3, h4, h5, h6, h7, h8⟩ := h
      subst h3; subst h4; subst h5; subst h8
      rw [scrapeLoop_scraped, scrapeLoop_sfs]
      dsimp only

/-- C2 witness: an empty run completes with 0 = 0 + 0 + 0. -/
theorem runScrape_completed_scraped_witness :
    (runScrape emptyEnv none 1 false {}).status =
        RunStatus.completed 0 0 0 0 0 0 0 0 ∧ (0 : Nat) = 0 + 0 + 0 :=
  ⟨rfl, runScrape_completed_scraped emptyEnv none 1 false {} 0 0 0 0 0 0 0 0 rfl⟩

/-- C3: for every run of run_scrape finalized as completed, articlesSuccess
= articlesNew + articlesUpdated, and articlesSuccess + articlesFailed +
articlesSkipped is at most articlesFound (the processed URLs are a filtered,
possibly limited subset of the found URLs). -/
theorem runScrape_completed_invariants (env : ScrapeEnv) (limit : Option Nat)
    (targetDate : Int) (force : Bool) (db : Db)
    (sid found scraped succ failed nw upd skp : Nat)
    (h : (runScrape env limit targetDate force db).status =
      RunStatus.completed sid found scraped succ failed nw upd skp) :
    succ = nw + upd ∧ succ + failed + skp ≤ found := by
  simp only [runScrape] at h
  split at h
  · simp at h
  · split at h
    · simp at h
    · simp only [RunStatus.completed.injEq] at h
      obtain ⟨h1, h2, h3, h4, h5, h6, h7, h8⟩ := h
      subst h2; subst h4; subst h5; subst h6; subst h7; subst h8
      constructor
      · exact scrapeLoop_newupd _ _ _ _ rfl
      · rw [scrapeLoop_sfs]
        dsimp only
        have hle1 := limitedLength limit
          (List.filter
            (fun u =>
              !(List.map (fun x => x.slug)
                  (updateSessionFound (createSession db env.now targetDate).2
                    (createSession db env.now targetDate).1.id
                    (if env.dateUrls.isEmpty = true then env.allUrls
                     else env.dateUrls).length).articles).contains
                (extractSlugFromUrl env.baseUrl u))
            (if env.dateUrls.isEmpty = true then env.allUrls else env.dateUrls))
        have hle2 := List.length_filter_le
          (fun u =>
            !(List.map (fun x => x.slug)
                (updateSessionFound (createSession db env.now targetDate).2
                  (createSession db env.now targetDate).1.id
                  (if env.dateUrls.isEmpty = true then env.allUrls
                   else env.dateUrls).length).articles).contains
              (extractSlugFromUrl env.baseUrl u))
          (if env.dateUrls.isEmpty = true then env.allUrls else env.dateUrls)
        omega

/-- C3 witness: an empty completed run satisfies both inequalities. -/
theorem runScrape_completed_invariants_witness :
    (runScrape emptyEnv none 2 false {}).status =
        RunStatus.completed 0 0 0 0 0 0 0 0 ∧ (0 : Nat) = 0 + 0 ∧
      (0 : Nat) + 0 + 0 ≤ 0 :=
  ⟨rfl,
    (runScrape_completed_invariants emptyEnv none 2 false {} 0 0 0 0 0 0 0 0 rfl).1,
    (runScrape_completed_invariants emptyEnv none 2 false {} 0 0 0 0 0 0 0 0 rfl).2⟩

/-! ## C9: the TikTok data-video-id URL -/

lemma tiktokIframesLoop_seen :
    ∀ (l : List IframeEl) (seen : List String) (u : String),
      u ∈ (tiktokIframesLoop l seen).2 →
      u ∈ seen ∨ ∃ c ∈ (tiktokIframesLoop l seen).1, c.url = some u := by
  intro l
  induction l with
  | nil => intro seen u hu; exact Or.inl hu
  | cons f rest ih =>
    intro seen u hu
    by_cases hc : seen.contains (f.src.getD "") = true
    · have hstep : tiktokIframesLoop (f :: rest) seen = tiktokIframesLoop rest seen := by
        simp only [tiktokIframesLoop]
        rw [if_pos hc]
      rw [hstep] at hu ⊢
      exact ih seen u hu
    · rcases hrec : tiktokIframesLoop rest (f.src.getD "" :: seen) with ⟨cs, seen2⟩
      have hstep : tiktokIframesLoop (f :: rest) seen =
          ({ platform := "tiktok", contentType := "embed", url := some (f.src.getD ""),
             embedHtml := some f.html,
             username := extractTiktokUsername (f.src.getD "") } :: cs, seen2) := by
        simp only [tiktokIframesLoop]
        rw [if_neg hc, hrec]
      rw [hstep] at hu ⊢
      rcases ih (f.src.getD "" :: seen) u (by rw [hrec]; exact hu) with h2 | h2
      · rcases List.mem_cons.mp h2 with h3 | h3
        · subst h3
          exact Or.inr ⟨_, List.mem_cons_self _ _, rfl⟩
        · exact Or.inl h3
      · obtain ⟨c, hcmem, hcu⟩ := h2
        rw [hrec] at hcmem
        exact Or.inr ⟨c, List.mem_cons_of_mem _ hcmem, hcu⟩

lemma tiktokBlockquotesLoop_hits :
    ∀ (l : List BlockquoteEl) (seen : List String) (bq : BlockquoteEl),
      bq ∈ l → ∀ u, tiktokBqUrl bq = some u →
      (∃ c ∈ (tiktokBlockquotesLoop l seen).1, c.url = some u) ∨ u ∈ seen := by
  intro l
  induction l with
  | nil => intro seen bq hmem; exact absurd hmem (List.not_mem_nil bq)
  | cons b rest ih =>
    intro seen bq hmem u hurl
    by_cases hg : (truthy (tiktokBqUrl b) && vidIn (tiktokBqUrl b) seen) = true
    · -- the head is skipped: its url is in seen already
      have hstep : tiktokBlockquotesLoop (b :: rest) seen =
          tiktokBlockquotesLoop rest seen := by
        simp only [tiktokBlockquotesLoop]
        rw [if_pos hg]
      rcases List.mem_cons.mp hmem with h3 | h3
      · subst h3
        rw [hurl] at hg
        right
        have h5 := (Bool.and_eq_true _ _).mp hg
        have h6 : seen.contains u = true := by simpa [vidIn] using h5.2
        exact List.elem_iff.mp h6
      · rw [hstep]
        exact ih seen bq h3 u hurl
    · rcases hrec : tiktokBlockquotesLoop rest
          (if truthy (tiktokBqUrl b) then (tiktokBqUrl b).getD "" :: seen else seen)
          with ⟨cs, seen3⟩
      have hstep : tiktokBlockquotesLoop (b :: rest) seen =
          ({ platform := "tiktok", contentType := "embed", url := tiktokBqUrl b,
             embedHtml := some b.html,
             username := extractTiktokUsername ((tiktokBqUrl b).getD ""),
             metadata := if b.dataVideoId.getD "" != "" then
               some [("video_id", b.dataVideoId.getD "")] else none } :: cs, seen3) := by
        simp only [tiktokBlockquotesLoop]
        rw [if_neg hg, hrec]
      rcases List.mem_cons.mp hmem with h3 | h3
      · subst h3
        rw [hstep]
        exact Or.inl ⟨_, List.mem_cons_self _ _, hurl⟩
      · rcases ih _ bq h3 u hurl with h4 | h4
        · obtain ⟨c, hcmem, hcu⟩ := h4
          rw [hrec] at hcmem
          rw [hstep]
          exact Or.inl ⟨c, List.mem_cons_of_mem _ hcmem, hcu⟩
        · by_cases ht : truthy (tiktokBqUrl b) = true
          · rw [if_pos ht] at h4
            rcases List.mem_cons.mp h4 with h5 | h5
            · rw [hstep]
              refine Or.inl ⟨_, List.mem_cons_self _ _, ?_⟩
              cases hbu : tiktokBqUrl b with
              | none =>
                rw [hbu] at ht
                exact absurd ht (by simp [truthy])
              | some v =>
                rw [hbu] at h5
                simp only [Option.getD_some] at h5
                simp [h5]
            · exact Or.inr h5
          · rw [if_neg ht] at h4
            exact Or.inr h4

/-! ## Non-emptiness of emitted urls -/

lemma append_ne_empty (a b : String) (ha : a ≠ "") : a ++ b ≠ "" := by
  intro h
  have hd := congrArg String.data h
  rw [String.data_append] at hd
  have hnil : a.data = [] := (List.append_eq_nil.mp hd).1
  exact ha (String.ext hnil)

lemma tiktokBqUrl_some_ne (bq : BlockquoteEl) (u : String)
    (h : tiktokBqUrl bq = some u) : u ≠ "" := by
  unfold tiktokBqUrl at h
  by_cases hc : (bq.cite.getD "" != "") = true
  · rw [if_pos hc] at h
    obtain rfl : bq.cite.getD "" = u := by simpa using h
    simpa using hc
  · rw [if_neg hc] at h
    by_cases hd : (bq.dataVideoId.getD "" != "") = true
    · rw [if_pos hd] at h
      obtain rfl : "https://www.tiktok.com/video/" ++ bq.dataVideoId.getD "" = u := by
        simpa using h
      exact append_ne_empty _ _ (by decide)
    · rw [if_neg hd] at h
      exact absurd h (by simp)

lemma containsCI_ne_empty (s pat : String) (hpat : pat.toList.isEmpty = false)
    (h : containsCI s pat = true) : s ≠ "" := by
  intro hs
  rw [hs] at h
  have h2 : containsCI "" pat = pat.toList.isEmpty := rfl
  rw [h2, hpat] at h
  exact Bool.false_ne_true h

lemma twitterStatusSearch_ne_empty (b : Bool) (s : String)
    (h : twitterStatusSearch b s.toList = true) : s ≠ "" := by
  intro hs
  rw [hs] at h
  exact Bool.false_ne_true h

lemma igBqUrl_some_ne (bq : BlockquoteEl) (u : String)
    (h : igBqUrl bq = some u) : u ≠ "" := by
  unfold igBqUrl at h
  by_cases hp : (bq.dataInstgrmPermalink.getD "" != "") = true
  · rw [if_pos hp] at h
    obtain rfl : bq.dataInstgrmPermalink.getD "" = u := by simpa using h
    simpa using hp
  · rw [if_neg hp] at h
    cases hf : bq.innerLinks.find? igInnerLinkSel with
    | none => rw [hf] at h; exact absurd h (by simp)
    | some a =>
      rw [hf] at h
      have h2 : a.href = some u := h
      have hsel := List.find?_some hf
      simp only [igInnerLinkSel] at hsel
      rw [h2] at hsel
      exact containsCI_ne_empty u "instagram.com/p/" (by decide)
        (by simpa [attrMatches] using hsel)

lemma twBqUrl_some_ne (bq : BlockquoteEl) (u : String)
    (h : twBqUrl bq = some u) : u ≠ "" := by
  unfold twBqUrl at h
  cases hf : bq.innerLinks.find? twInnerLinkSel with
  | none => rw [hf] at h; exact absurd h (by simp)
  | some a =>
    rw [hf] at h
    have h2 : a.href = some u := h
    have hsel := List.find?_some hf
    simp only [twInnerLinkSel] at hsel
    rw [h2] at hsel
    exact twitterStatusSearch_ne_empty false _ (by simpa [attrMatches] using hsel)

/-! ## Loop invariants: TikTok -/

lemma LoopSpec_nil (p : String) (cts : List String) (seen : List String) :
    LoopSpec p cts seen ([], seen) := by
  unfold LoopSpec
  exact ⟨fun c hc => absurd hc (List.not_mem_nil c), List.nodup_nil,
    fun u hu => absurd hu (List.not_mem_nil u), fun u hu => hu⟩

lemma not_mem_of_not_contains {seen : List String} {u : String}
    (h : ¬ seen.contains u = true) : u ∉ seen :=
  fun hm => h (List.elem_iff.mpr hm)

lemma tiktokIframesLoop_spec :
    ∀ (l : List IframeEl) (seen : List String),
      LoopSpec "tiktok" ["embed"] seen (tiktokIframesLoop l seen) := by
  intro l
  induction l with
  | nil => intro seen; exact LoopSpec_nil _ _ seen
  | cons f rest ih =>
    intro seen
    by_cases hg : seen.contains (f.src.getD "") = true
    · have hstep : tiktokIframesLoop (f :: rest) seen = tiktokIframesLoop rest seen := by
        simp only [tiktokIframesLoop]; rw [if_pos hg]
      rw [hstep]
      obtain ⟨hp, hnd, hfr, hmono⟩ := ih seen
      exact ⟨hp, hnd, fun u hu => ⟨(hfr u hu).1, (hfr u hu).2⟩, hmono⟩
    · rcases hrec : tiktokIframesLoop rest (f.src.getD "" :: seen) with ⟨cs, seen2⟩
      have hstep : tiktokIframesLoop (f :: rest) seen =
          ({ platform := "tiktok", contentType := "embed", url := some (f.src.getD ""),
             embedHtml := some f.html,
             username := extractTiktokUsername (f.src.getD "") } :: cs, seen2) := by
        simp only [tiktokIframesLoop]; rw [if_neg hg, hrec]
      rw [hstep]
      have ihspec := ih (f.src.getD "" :: seen)
      rw [hrec] at ihspec
      obtain ⟨hp, hnd, hfr, hmono⟩ := ihspec
      have hurls : urlsOf
          ({ platform := "tiktok", contentType := "embed",
             url := some (f.src.getD ""), embedHtml := some f.html,
             username := extractTiktokUsername (f.src.getD "") } :: cs) =
          f.src.getD "" :: urlsOf cs := rfl
      unfold LoopSpec
      refine ⟨?_, ?_, ?_, ?_⟩
      · intro c hc
        rcases List.mem_cons.mp hc with h3 | h3
        · subst h3; exact ⟨rfl, by simp⟩
        · exact hp c h3
      · rw [hurls]
        refine List.nodup_cons.mpr ⟨?_, hnd⟩
        intro hm
        exact (hfr _ hm).1 (List.mem_cons_self _ _)
      · intro u hu
        rw [hurls] at hu
        rcases List.mem_cons.mp hu with h3 | h3
        · subst h3
          exact ⟨not_mem_of_not_contains hg, hmono _ (List.mem_cons_self _ _)⟩
        · exact ⟨fun hm => (hfr u h3).1 (List.mem_cons_of_mem _ hm), (hfr u h3).2⟩
      · intro u hu
        exact hmono u (List.mem_cons_of_mem _ hu)

lemma tiktokLinksLoop_spec :
    ∀ (l : List AnchorEl) (seen : List String),
      LoopSpec "tiktok" ["video"] seen (tiktokLinksLoop l seen) := by
  intro l
  induction l with
  | nil => intro seen; exact LoopSpec_nil _ _ seen
  | cons a rest ih =>
    intro seen
    by_cases hg : (a.href.getD "" != "" && !(seen.contains (a.href.getD ""))) = true
    · rcases hrec : tiktokLinksLoop rest (a.href.getD "" :: seen) with ⟨cs, seen2⟩
      have hstep : tiktokLinksLoop (a :: rest) seen =
          ({ platform := "tiktok", contentType := "video", url := some (a.href.getD ""),
             username := extractTiktokUsername (a.href.getD ""),
             caption := textOrNone a.text } :: cs, seen2) := by
        simp only [tiktokLinksLoop]; rw [if_pos hg, hrec]
      rw [hstep]
      have ihspec := ih (a.href.getD "" :: seen)
      rw [hrec] at ihspec
      obtain ⟨hp, hnd, hfr, hmono⟩ := ihspec
      have hnc : ¬ seen.contains (a.href.getD "") = true := by
        have h2 := (Bool.and_eq_true _ _).mp hg
        simpa using h2.2
      have hurls : urlsOf
          ({ platform := "tiktok", contentType := "video",
             url := some (a.href.getD ""),
             username := extractTiktokUsername (a.href.getD ""),
             caption := textOrNone a.text } :: cs) =
          a.href.getD "" :: urlsOf cs := rfl
      unfold LoopSpec
      refine ⟨?_, ?_, ?_, ?_⟩
      · intro c hc
        rcases List.mem_cons.mp hc with h3 | h3
        · subst h3; exact ⟨rfl, by simp⟩
        · exact hp c h3
      · rw [hurls]
        refine List.nodup_cons.mpr ⟨?_, hnd⟩
        intro hm
        exact (hfr _ hm).1 (List.mem_cons_self _ _)
      · intro u hu
        rw [hurls] at hu
        rcases List.mem_cons.mp hu with h3 | h3
        · subst h3
          exact ⟨not_mem_of_not_contains hnc, hmono _ (List.mem_cons_self _ _)⟩
        · exact ⟨fun hm => (hfr u h3).1 (List.mem_cons_of_mem _ hm), (hfr u h3).2⟩
      · intro u hu
        exact hmono u (List.mem_cons_of_mem _ hu)
    · have hstep : tiktokLinksLoop (a :: rest) seen = tiktokLinksLoop rest seen := by
        simp only [tiktokLinksLoop]; rw [if_neg hg]
      rw [hstep]
      exact ih seen

lemma tiktokRegexLoop_spec :
    ∀ (l : List String) (seen : List String),
      LoopSpec "tiktok" ["video"] seen (tiktokRegexLoop l seen) := by
  intro l
  induction l with
  | nil => intro seen; exact LoopSpec_nil _ _ seen
  | cons u0 rest ih =>
    intro seen
    by_cases hg : seen.contains u0 = true
    · have hstep : tiktokRegexLoop (u0 :: rest) seen = tiktokRegexLoop rest seen := by
        simp only [tiktokRegexLoop]; rw [if_pos hg]
      rw [hstep]
      exact ih seen
    · rcases hrec : tiktokRegexLoop rest (u0 :: seen) with ⟨cs, seen2⟩
      have hstep : tiktokRegexLoop (u0 :: rest) seen =
          ({ platform := "tiktok", contentType := "video", url := some u0,
             username := extractTiktokUsername u0 } :: cs, seen2) := by
        simp only [tiktokRegexLoop]; rw [if_neg hg, hrec]
      rw [hstep]
      have ihspec := ih (u0 :: seen)
      rw [hrec] at ihspec
      obtain ⟨hp, hnd, hfr, hmono⟩ := ihspec
      have hurls : urlsOf
          ({ platform := "tiktok", contentType := "video", url := some u0,
             username := extractTiktokUsername u0 } :: cs) = u0 :: urlsOf cs := rfl
      unfold LoopSpec
      refine ⟨?_, ?_, ?_, ?_⟩
      · intro c hc
        rcases List.mem_cons.mp hc with h3 | h3
        · subst h3; exact ⟨rfl, by simp⟩
        · exact hp c h3
      · rw [hurls]
        refine List.nodup_cons.mpr ⟨?_, hnd⟩
        intro hm
        exact (hfr _ hm).1 (List.mem_cons_self _ _)
      · intro u hu
        rw [hurls] at hu
        rcases List.mem_cons.mp hu with h3 | h3
        · subst h3
          exact ⟨not_mem_of_not_contains hg, hmono _ (List.mem_cons_self _ _)⟩
        · exact ⟨fun hm => (hfr u h3).1 (List.mem_cons_of_mem _ hm), (hfr u h3).2⟩
      · intro u hu
        exact hmono u (List.mem_cons_of_mem _ hu)

lemma tiktokBlockquotesLoop_spec :
    ∀ (l : List BlockquoteEl) (seen : List String),
      LoopSpec "tiktok" ["embed"] seen (tiktokBlockquotesLoop l seen) := by
  intro l
  induction l with
  | nil => intro seen; exact LoopSpec_nil _ _ seen
  | cons b rest ih =>
    intro seen
    by_cases hg : (truthy (tiktokBqUrl b) && vidIn (tiktokBqUrl b) seen) = true
    · have hstep : tiktokBlockquotesLoop (b :: rest) seen =
          tiktokBlockquotesLoop rest seen := by
        simp only [tiktokBlockquotesLoop]; rw [if_pos hg]
      rw [hstep]
      exact ih seen
    · rcases hrec : tiktokBlockquotesLoop rest
          (if truthy (tiktokBqUrl b) then (tiktokBqUrl b).getD "" :: seen else seen)
          with ⟨cs, seen3⟩
      have hstep : tiktokBlockquotesLoop (b :: rest) seen =
          ({ platform := "tiktok", contentType := "embed", url := tiktokBqUrl b,
             embedHtml := some b.html,
             username := extractTiktokUsername ((tiktokBqUrl b).getD ""),
             metadata := if b.dataVideoId.getD "" != "" then
               some [("video_id", b.dataVideoId.getD "")] else none } :: cs, seen3) := by
        simp only [tiktokBlockquotesLoop]; rw [if_neg hg, hrec]
      rw [hstep]
      cases hbu : tiktokBqUrl b with
      | none =>
        have hseen2 : (if truthy (tiktokBqUrl b) then (tiktokBqUrl b).getD "" :: seen
            else seen) = seen := by
          rw [hbu]; simp [truthy]
        rw [hseen2] at hrec
        have ihspec := ih seen
        rw [hrec] at ihspec
        obtain ⟨hp, hnd, hfr, hmono⟩ := ihspec
        unfold LoopSpec
        refine ⟨?_, ?_, ?_, ?_⟩
        · intro c hc
          rcases List.mem_cons.mp hc with h3 | h3
          · subst h3; exact ⟨rfl, by simp⟩
          · exact hp c h3
        · show (urlsOf cs).Nodup
          exact hnd
        · intro u hu
          have hu2 : u ∈ urlsOf cs := hu
          exact ⟨(hfr u hu2).1, (hfr u hu2).2⟩
        · intro u hu
          exact hmono u hu
      | some u0 =>
        have hne : u0 ≠ "" := tiktokBqUrl_some_ne b u0 hbu
        have htr : truthy (tiktokBqUrl b) = true := by
          rw [hbu]; simpa [truthy] using hne
        have hseen2 : (if truthy (tiktokBqUrl b) then (tiktokBqUrl b).getD "" :: seen
            else seen) = u0 :: seen := by
          rw [if_pos htr, hbu]; rfl
        rw [hseen2] at hrec
        have ihspec := ih (u0 :: seen)
        rw [hrec] at ihspec
        obtain ⟨hp, hnd, hfr, hmono⟩ := ihspec
        have hnc : ¬ seen.contains u0 = true := by
          intro hcon
          apply hg
          rw [hbu]
          simp [truthy, vidIn, hne]
          exact List.elem_iff.mp hcon
        unfold LoopSpec
        refine ⟨?_, ?_, ?_, ?_⟩
        · intro c hc
          rcases List.mem_cons.mp hc with h3 | h3
          · subst h3; exact ⟨rfl, by simp⟩
          · exact hp c h3
        · show (u0 :: urlsOf cs).Nodup
          refine List.nodup_cons.mpr ⟨?_, hnd⟩
          intro hm
          exact (hfr _ hm).1 (List.mem_cons_self _ _)
        · intro u hu
          have hu2 : u ∈ u0 :: urlsOf cs := hu
          rcases List.mem_cons.mp hu2 with h3 | h3
          · subst h3
            exact ⟨not_mem_of_not_contains hnc, hmono _ (List.mem_cons_self _ _)⟩
          · exact ⟨fun hm => (hfr u h3).1 (List.mem_cons_of_mem _ hm), (hfr u h3).2⟩
        · intro u hu
          exact hmono u (List.mem_cons_of_mem _ hu)

/-! ## Loop invariants: Instagram -/

lemma igContentType_cases (s : String) :
    igContentType s = "video" ∨ igContentType s = "post" := by
  unfold igContentType
  by_cases h : (containsCS s "/reel/" || containsCS s "/tv/") = true
  · left; rw [if_pos h]
  · right; rw [if_neg h]

lemma igBlockquotesLoop_spec :
    ∀ (l : List BlockquoteEl) (seen : List String),
      LoopSpec "instagram" ["embed"] seen (igBlockquotesLoop l seen) := by
  intro l
  induction l with
  | nil => intro seen; exact LoopSpec_nil _ _ seen
  | cons b rest ih =>
    intro seen
    by_cases hg : vidIn (igBqUrl b) seen = true
    · have hstep : igBlockquotesLoop (b :: rest) seen = igBlockquotesLoop rest seen := by
        simp only [igBlockquotesLoop]; rw [if_pos hg]
      rw [hstep]
      exact ih seen
    · rcases hrec : igBlockquotesLoop rest
          (if truthy (igBqUrl b) then (igBqUrl b).getD "" :: seen else seen)
          with ⟨cs, seen3⟩
      have hstep : igBlockquotesLoop (b :: rest) seen =
          ({ platform := "instagram", contentType := "embed", url := igBqUrl b,
             embedHtml := some b.html,
             username := extractInstagramUsername ((igBqUrl b).getD "") } :: cs,
           seen3) := by
        simp only [igBlockquotesLoop]; rw [if_neg hg, hrec]
      rw [hstep]
      cases hbu : igBqUrl b with
      | none =>
        have hseen2 : (if truthy (igBqUrl b) then (igBqUrl b).getD "" :: seen
            else seen) = seen := by
          rw [hbu]; simp [truthy]
        rw [hseen2] at hrec
        have ihspec := ih seen
        rw [hrec] at ihspec
        obtain ⟨hp, hnd, hfr, hmono⟩ := ihspec
        unfold LoopSpec
        refine ⟨?_, ?_, ?_, ?_⟩
        · intro c hc
          rcases List.mem_cons.mp hc with h3 | h3
          · subst h3; exact ⟨rfl, by simp⟩
          · exact hp c h3
        · show (urlsOf cs).Nodup
          exact hnd
        · intro u hu
          have hu2 : u ∈ urlsOf cs := hu
          exact ⟨(hfr u hu2).1, (hfr u hu2).2⟩
        · intro u hu
          exact hmono u hu
      | some u0 =>
        have hne : u0 ≠ "" := igBqUrl_some_ne b u0 hbu
        have htr : truthy (igBqUrl b) = true := by
          rw [hbu]; simpa [truthy] using hne
        have hseen2 : (if truthy (igBqUrl b) then (igBqUrl b).getD "" :: seen
            else seen) = u0 :: seen := by
          rw [if_pos htr, hbu]; rfl
        rw [hseen2] at hrec
        have ihspec := ih (u0 :: seen)
        rw [hrec] at ihspec
        obtain ⟨hp, hnd, hfr, hmono⟩ := ihspec
        have hnc : ¬ seen.contains u0 = true := by
          intro hcon
          apply hg
          rw [hbu]
          simpa [vidIn] using hcon
        unfold LoopSpec
        refine ⟨?_, ?_, ?_, ?_⟩
        · intro c hc
          rcases List.mem_cons.mp hc with h3 | h3
          · subst h3; exact ⟨rfl, by simp⟩
          · exact hp c h3
        · show (u0 :: urlsOf cs).Nodup
          refine List.nodup_cons.mpr ⟨?_, hnd⟩
          intro hm
          exact (hfr _ hm).1 (List.mem_cons_self _ _)
        · intro u hu
          have hu2 : u ∈ u0 :: urlsOf cs := hu
          rcases List.mem_cons.mp hu2 with h3 | h3
          · subst h3
            exact ⟨not_mem_of_not_contains hnc, hmono _ (List.mem_cons_self _ _)⟩
          · exact ⟨fun hm => (hfr u h3).1 (List.mem_cons_of_mem _ hm), (hfr u h3).2⟩
        · intro u hu
          exact hmono u (List.mem_cons_of_mem _ hu)

lemma igIframesLoop_spec :
    ∀ (l : List IframeEl) (seen : List String),
      LoopSpec "instagram" ["embed"] seen (igIframesLoop l seen) := by
  intro l
  induction l with
  | nil => intro seen; exact LoopSpec_nil _ _ seen
  | cons f rest ih =>
    intro seen
    by_cases hg : seen.contains (f.src.getD "") = true
    · have hstep : igIframesLoop (f :: rest) seen = igIframesLoop rest seen := by
        simp only [igIframesLoop]; rw [if_pos hg]
      rw [hstep]
      exact ih seen
    · rcases hrec : igIframesLoop rest (f.src.getD "" :: seen) with ⟨cs, seen2⟩
      have hstep : igIframesLoop (f :: rest) seen =
          ({ platform := "instagram", contentType := "embed",
             url := some (f.src.getD ""), embedHtml := some f.html,
             username := extractInstagramUsername (f.src.getD "") } :: cs, seen2) := by
        simp only [igIframesLoop]; rw [if_neg hg, hrec]
      rw [hstep]
      have ihspec := ih (f.src.getD "" :: seen)
      rw [hrec] at ihspec
      obtain ⟨hp, hnd, hfr, hmono⟩ := ihspec
      unfold LoopSpec
      refine ⟨?_, ?_, ?_, ?_⟩
      · intro c hc
        rcases List.mem_cons.mp hc with h3 | h3
        · subst h3; exact ⟨rfl, by simp⟩
        · exact hp c h3
      · show (f.src.getD "" :: urlsOf cs).Nodup
        refine List.nodup_cons.mpr ⟨?_, hnd⟩
        intro hm
        exact (hfr _ hm).1 (List.mem_cons_self _ _)
      · intro u hu
        have hu2 : u ∈ f.src.getD "" :: urlsOf cs := hu
        rcases List.mem_cons.mp hu2 with h3 | h3
        · subst h3
          exact ⟨not_mem_of_not_contains hg, hmono _ (List.mem_cons_self _ _)⟩
        · exact ⟨fun hm => (hfr u h3).1 (List.mem_cons_of_mem _ hm), (hfr u h3).2⟩
      · intro u hu
        exact hmono u (List.mem_cons_of_mem _ hu)

lemma igLinksLoop_spec :
    ∀ (l : List AnchorEl) (seen : List String),
      LoopSpec "instagram" ["video", "post"] seen (igLinksLoop l seen) := by
  intro l
  induction l with
  | nil => intro seen; exact LoopSpec_nil _ _ seen
  | cons a rest ih =>
    intro seen
    by_cases hg : (a.href.getD "" != "" && !(seen.contains (a.href.getD ""))) = true
    · rcases hrec : igLinksLoop rest (a.href.getD "" :: seen) with ⟨cs, seen2⟩
      have hstep : igLinksLoop (a :: rest) seen =
          ({ platform := "instagram", contentType := igContentType (a.href.getD ""),
             url := some (a.href.getD ""),
             username := extractInstagramUsername (a.href.getD ""),
             caption := textOrNone a.text } :: cs, seen2) := by
        simp only [igLinksLoop]; rw [if_pos hg, hrec]
      rw [hstep]
      have ihspec := ih (a.href.getD "" :: seen)
      rw [hrec] at ihspec
      obtain ⟨hp, hnd, hfr, hmono⟩ := ihspec
      have hnc : ¬ seen.contains (a.href.getD "") = true := by
        have h2 := (Bool.and_eq_true _ _).mp hg
        simpa using h2.2
      unfold LoopSpec
      refine ⟨?_, ?_, ?_, ?_⟩
      · intro c hc
        rcases List.mem_cons.mp hc with h3 | h3
        · subst h3
          refine ⟨rfl, ?_⟩
          rcases igContentType_cases (a.href.getD "") with h4 | h4 <;> simp [h4]
        · exact hp c h3
      · show (a.href.getD "" :: urlsOf cs).Nodup
        refine List.nodup_cons.mpr ⟨?_, hnd⟩
        intro hm
        exact (hfr _ hm).1 (List.mem_cons_self _ _)
      · intro u hu
        have hu2 : u ∈ a.href.getD "" :: urlsOf cs := hu
        rcases List.mem_cons.mp hu2 with h3 | h3
        · subst h3
          exact ⟨not_mem_of_not_contains hnc, hmono _ (List.mem_cons_self _ _)⟩
        · exact ⟨fun hm => (hfr u h3).1 (List.mem_cons_of_mem _ hm), (hfr u h3).2⟩
      · intro u hu
        exact hmono u (List.mem_cons_of_mem _ hu)
    · have hstep : igLinksLoop (a :: rest) seen = igLinksLoop rest seen := by
        simp only [igLinksLoop]; rw [if_neg hg]
      rw [hstep]
      exact ih seen

lemma igRegexLoop_spec :
    ∀ (l : List String) (seen : List String),
      LoopSpec "instagram" ["video", "post"] seen (igRegexLoop l seen) := by
  intro l
  induction l with
  | nil => intro seen; exact LoopSpec_nil _ _ seen
  | cons u0 rest ih =>
    intro seen
    by_cases hg : seen.contains u0 = true
    · have hstep : igRegexLoop (u0 :: rest) seen = igRegexLoop rest seen := by
        simp only [igRegexLoop]; rw [if_pos hg]
      rw [hstep]
      exact ih seen
    · rcases hrec : igRegexLoop rest (u0 :: seen) with ⟨cs, seen2⟩
      have hstep : igRegexLoop (u0 :: rest) seen =
          ({ platform := "instagram", contentType := igContentType u0, url := some u0,
             username := extractInstagramUsername u0 } :: cs, seen2) := by
        simp only [igRegexLoop]; rw [if_neg hg, hrec]
      rw [hstep]
      have ihspec := ih (u0 :: seen)
      rw [hrec] at ihspec
      obtain ⟨hp, hnd, hfr, hmono⟩ := ihspec
      unfold LoopSpec
      refine ⟨?_, ?_, ?_, ?_⟩
      · intro c hc
        rcases List.mem_cons.mp hc with h3 | h3
        · subst h3
          refine ⟨rfl, ?_⟩
          rcases igContentType_cases u0 with h4 | h4 <;> simp [h4]
        · exact hp c h3
      · show (u0 :: urlsOf cs).Nodup
        refine List.nodup_cons.mpr ⟨?_, hnd⟩
        intro hm
        exact (hfr _ hm).1 (List.mem_cons_self _ _)
      · intro u hu
        have hu2 : u ∈ u0 :: urlsOf cs := hu
        rcases List.mem_cons.mp hu2 with h3 | h3
        · subst h3
          exact ⟨not_mem_of_not_contains hg, hmono _ (List.mem_cons_self _ _)⟩
        · exact ⟨fun hm => (hfr u h3).1 (List.mem_cons_of_mem _ hm), (hfr u h3).2⟩
      · intro u hu
        exact hmono u (List.mem_cons_of_mem _ hu)

/-! ## Loop invariants: Twitter -/

lemma twBlockquotesLoop_spec :
    ∀ (l : List BlockquoteEl) (seen : List String),
      LoopSpec "twitter" ["tweet"] seen (twBlockquotesLoop l seen) := by
  intro l
  induction l with
  | nil => intro seen; exact LoopSpec_nil _ _ seen
  | cons b rest ih =>
    intro seen
    by_cases hg : vidIn (twBqUrl b) seen = true
    · have hstep : twBlockquotesLoop (b :: rest) seen = twBlockquotesLoop rest seen := by
        simp only [twBlockquotesLoop]; rw [if_pos hg]
      rw [hstep]
      exact ih seen
    · rcases hrec : twBlockquotesLoop rest
          (if truthy (twBqUrl b) then (twBqUrl b).getD "" :: seen else seen)
          with ⟨cs, seen3⟩
      have hstep : twBlockquotesLoop (b :: rest) seen =
          ({ platform := "twitter", contentType := "tweet", url := twBqUrl b,
             embedHtml := some b.html,
             username := extractTwitterUsername ((twBqUrl b).getD ""),
             caption := if b.text != "" then some (b.text.take 500) else none } :: cs,
           seen3) := by
        simp only [twBlockquotesLoop]; rw [if_neg hg, hrec]
      rw [hstep]
      cases hbu : twBqUrl b with
      | none =>
        have hseen2 : (if truthy (twBqUrl b) then (twBqUrl b).getD "" :: seen
            else seen) = seen := by
          rw [hbu]; simp [truthy]
        rw [hseen2] at hrec
        have ihspec := ih seen
        rw [hrec] at ihspec
        obtain ⟨hp, hnd, hfr, hmono⟩ := ihspec
        unfold LoopSpec
        refine ⟨?_, ?_, ?_, ?_⟩
        · intro c hc
          rcases List.mem_cons.mp hc with h3 | h3
          · subst h3; exact ⟨rfl, by simp⟩
          · exact hp c h3
        · show (urlsOf cs).Nodup
          exact hnd
        · intro u hu
          have hu2 : u ∈ urlsOf cs := hu
          exact ⟨(hfr u hu2).1, (hfr u hu2).2⟩
        · intro u hu
          exact hmono u hu
      | some u0 =>
        have hne : u0 ≠ "" := twBqUrl_some_ne b u0 hbu
        have htr : truthy (twBqUrl b) = true := by
          rw [hbu]; simpa [truthy] using hne
        have hseen2 : (if truthy (twBqUrl b) then (twBqUrl b).getD "" :: seen
            else seen) = u0 :: seen := by
          rw [if_pos htr, hbu]; rfl
        rw [hseen2] at hrec
        have ihspec := ih (u0 :: seen)
        rw [hrec] at ihspec
        obtain ⟨hp, hnd, hfr, hmono⟩ := ihspec
        have hnc : ¬ seen.contains u0 = true := by
          intro hcon
          apply hg
          rw [hbu]
          simpa [vidIn] using hcon
        unfold LoopSpec
        refine ⟨?_, ?_, ?_, ?_⟩
        · intro c hc
          rcases List.mem_cons.mp hc with h3 | h3
          · subst h3; exact ⟨rfl, by simp⟩
          · exact hp c h3
        · show (u0 :: urlsOf cs).Nodup
          refine List.nodup_cons.mpr ⟨?_, hnd⟩
          intro hm
          exact (hfr _ hm).1 (List.mem_cons_self _ _)
        · intro u hu
          have hu2 : u ∈ u0 :: urlsOf cs := hu
          rcases List.mem_cons.mp hu2 with h3 | h3
          · subst h3
            exact ⟨not_mem_of_not_contains hnc, hmono _ (List.mem_cons_self _ _)⟩
          · exact ⟨fun hm => (hfr u h3).1 (List.mem_cons_of_mem _ hm), (hfr u h3).2⟩
        · intro u hu
          exact hmono u (List.mem_cons_of_mem _ hu)

lemma twIframesLoop_spec :
    ∀ (l : List IframeEl) (seen : List String),
      LoopSpec "twitter" ["embed"] seen (twIframesLoop l seen) := by
  intro l
  induction l with
  | nil => intro seen; exact LoopSpec_nil _ _ seen
  | cons f rest ih =>
    intro seen
    by_cases hg : seen.contains (f.src.getD "") = true
    · have hstep : twIframesLoop (f :: rest) seen = twIframesLoop rest seen := by
        simp only [twIframesLoop]; rw [if_pos hg]
      rw [hstep]
      exact ih seen
    · rcases hrec : twIframesLoop rest (f.src.getD "" :: seen) with ⟨cs, seen2⟩
      have hstep : twIframesLoop (f :: rest) seen =
          ({ platform := "twitter", contentType := "embed",
             url := some (f.src.getD ""), embedHtml := some f.html } :: cs, seen2) := by
        simp only [twIframesLoop]; rw [if_neg hg, hrec]
      rw [hstep]
      have ihspec := ih (f.src.getD "" :: seen)
      rw [hrec] at ihspec
      obtain ⟨hp, hnd, hfr, hmono⟩ := ihspec
      unfold LoopSpec
      refine ⟨?_, ?_, ?_, ?_⟩
      · intro c hc
        rcases List.mem_cons.mp hc with h3 | h3
        · subst h3; exact ⟨rfl, by simp⟩
        · exact hp c h3
      · show (f.src.getD "" :: urlsOf cs).Nodup
        refine List.nodup_cons.mpr ⟨?_, hnd⟩
        intro hm
        exact (hfr _ hm).1 (List.mem_cons_self _ _)
      · intro u hu
        have hu2 : u ∈ f.src.getD "" :: urlsOf cs := hu
        rcases List.mem_cons.mp hu2 with h3 | h3
        · subst h3
          exact ⟨not_mem_of_not_contains hg, hmono _ (List.mem_cons_self _ _)⟩
        · exact ⟨fun hm => (hfr u h3).1 (List.mem_cons_of_mem _ hm), (hfr u h3).2⟩
      · intro u hu
        exact hmono u (List.mem_cons_of_mem _ hu)

lemma twLinksLoop_spec :
    ∀ (l : List AnchorEl) (seen : List String),
      LoopSpec "twitter" ["tweet"] seen (twLinksLoop l seen) := by
  intro l
  induction l with
  | nil => intro seen; exact LoopSpec_nil _ _ seen
  | cons a rest ih =>
    intro seen
    by_cases hg : (a.href.getD "" != "" && !(seen.contains (a.href.getD ""))) = true
    · rcases hrec : twLinksLoop rest (a.href.getD "" :: seen) with ⟨cs, seen2⟩
      have hstep : twLinksLoop (a :: rest) seen =
          ({ platform := "twitter", contentType := "tweet",
             url := some (a.href.getD ""),
             username := extractTwitterUsername (a.href.getD ""),
             caption := textOrNone a.text } :: cs, seen2) := by
        simp only [twLinksLoop]; rw [if_pos hg, hrec]
      rw [hstep]
      have ihspec := ih (a.href.getD "" :: seen)
      rw [hrec] at ihspec
      obtain ⟨hp, hnd, hfr, hmono⟩ := ihspec
      have hnc : ¬ seen.contains (a.href.getD "") = true := by
        have h2 := (Bool.and_eq_true _ _).mp hg
        simpa using h2.2
      unfold LoopSpec
      refine ⟨?_, ?_, ?_, ?_⟩
      · intro c hc
        rcases List.mem_cons.mp hc with h3 | h3
        · subst h3; exact ⟨rfl, by simp⟩
        · exact hp c h3
      · show (a.href.getD "" :: urlsOf cs).Nodup
        refine List.nodup_cons.mpr ⟨?_, hnd⟩
        intro hm
        exact (hfr _ hm).1 (List.mem_cons_self _ _)
      · intro u hu
        have hu2 : u ∈ a.href.getD "" :: urlsOf cs := hu
        rcases List.mem_cons.mp hu2 with h3 | h3
        · subst h3
          exact ⟨not_mem_of_not_contains hnc, hmono _ (List.mem_cons_self _ _)⟩
        · exact ⟨fun hm => (hfr u h3).1 (List.mem_cons_of_mem _ hm), (hfr u h3).2⟩
      · intro u hu
        exact hmono u (List.mem_cons_of_mem _ hu)
    · have hstep : twLinksLoop (a :: rest) seen = twLinksLoop rest seen := by
        simp only [twLinksLoop]; rw [if_neg hg]
      rw [hstep]
      exact ih seen

lemma twRegexLoop_spec :
    ∀ (l : List String) (seen : List String),
      LoopSpec "twitter" ["tweet"] seen (twRegexLoop l seen) := by
  intro l
  induction l with
  | nil => intro seen; exact LoopSpec_nil _ _ seen
  | cons u0 rest ih =>
    intro seen
    by_cases hg : seen.contains u0 = true
    · have hstep : twRegexLoop (u0 :: rest) seen = twRegexLoop rest seen := by
        simp only [twRegexLoop]; rw [if_pos hg]
      rw [hstep]
      exact ih seen
    · rcases hrec : twRegexLoop rest (u0 :: seen) with ⟨cs, seen2⟩
      have hstep : twRegexLoop (u0 :: rest) seen =
          ({ platform := "twitter", contentType := "tweet", url := some u0,
             username := extractTwitterUsername u0 } :: cs, seen2) := by
        simp only [twRegexLoop]; rw [if_neg hg, hrec]
      rw [hstep]
      have ihspec := ih (u0 :: seen)
      rw [hrec] at ihspec
      obtain ⟨hp, hnd, hfr, hmono⟩ := ihspec
      unfold LoopSpec
      refine ⟨?_, ?_, ?_, ?_⟩
      · intro c hc
        rcases List.mem_cons.mp hc with h3 | h3
        · subst h3; exact ⟨rfl, by simp⟩
        · exact hp c h3
      · show (u0 :: urlsOf cs).Nodup
        refine List.nodup_cons.mpr ⟨?_, hnd⟩
        intro hm
        exact (hfr _ hm).1 (List.mem_cons_self _ _)
      · intro u hu
        have hu2 : u ∈ u0 :: urlsOf cs := hu
        rcases List.mem_cons.mp hu2 with h3 | h3
        · subst h3
          exact ⟨not_mem_of_not_contains hg, hmono _ (List.mem_cons_self _ _)⟩
        · exact ⟨fun hm => (hfr u h3).1 (List.mem_cons_of_mem _ hm), (hfr u h3).2⟩
      · intro u hu
        exact hmono u (List.mem_cons_of_mem _ hu)

/-! ## The YouTube video-id roundtrip -/

lemma mk_ne_empty (r : List Char) (h : r ≠ []) : String.mk r ≠ "" := by
  intro h2
  have h3 := congrArg String.data h2
  exact h h3

lemma toList_ne_nil (v : String) (h : v ≠ "") : v.toList ≠ [] :=
  fun h0 => h (String.ext h0)

lemma mem_getLast? {α : Type} : ∀ (l : List α) (a : α), l.getLast? = some a → a ∈ l := by
  intro l
  induction l with
  | nil => intro a h; simp at h
  | cons x rest ih =>
    intro a h
    cases rest with
    | nil =>
      simp only [List.getLast?_singleton, Option.some.injEq] at h
      simp [h]
    | cons y t =>
      rw [List.getLast?_cons_cons] at h
      exact List.mem_cons_of_mem _ (ih a h)

lemma findLitRunCS_some_spec (lit : List Char) (cls : Char → Bool) :
    ∀ (l r : List Char), findLitRunCS lit cls l = some r →
      r ≠ [] ∧ ∀ c ∈ r, cls c = true := by
  intro l
  induction l with
  | nil => intro r h; exact absurd h (by simp [findLitRunCS])
  | cons a rest ih =>
    intro r h
    simp only [findLitRunCS] at h
    by_cases hp : lit.isPrefixOf (a :: rest) = true
    · rw [if_pos hp] at h
      by_cases he : (((a :: rest).drop lit.length).takeWhile cls).isEmpty = true
      · rw [if_pos he] at h
        exact ih r h
      · rw [if_neg he] at h
        have hr : ((a :: rest).drop lit.length).takeWhile cls = r := by simpa using h
        subst hr
        refine ⟨by simpa [List.isEmpty_iff] using he, ?_⟩
        intro c hc
        exact List.mem_takeWhile_imp hc
    · rw [if_neg hp] at h
      exact ih r h

lemma extractYoutubeVideoId_spec (s v : String)
    (h : extractYoutubeVideoId s = some v) :
    v ≠ "" ∧ ∀ c ∈ v.toList, wordDashChar c = true := by
  unfold extractYoutubeVideoId at h
  cases h1 : findLitRunCS "youtube.com/embed/".toList wordDashChar s.toList with
  | some r =>
    rw [h1] at h
    have hv : String.mk r = v := by simpa using h
    subst hv
    have h2 := findLitRunCS_some_spec _ _ _ r h1
    exact ⟨mk_ne_empty r h2.1, h2.2⟩
  | none =>
    rw [h1] at h
    cases h2 : findLitRunCS "youtube.com/watch?v=".toList wordDashChar s.toList with
    | some r =>
      rw [h2] at h
      have hv : String.mk r = v := by simpa using h
      subst hv
      have h3 := findLitRunCS_some_spec _ _ _ r h2
      exact ⟨mk_ne_empty r h3.1, h3.2⟩
    | none =>
      rw [h2] at h
      cases h3 : findLitRunCS "youtu.be/".toList wordDashChar s.toList with
      | some r =>
        rw [h3] at h
        have hv : String.mk r = v := by simpa using h
        subst hv
        have h4 := findLitRunCS_some_spec _ _ _ r h3
        exact ⟨mk_ne_empty r h4.1, h4.2⟩
      | none =>
        rw [h3] at h
        cases h4 : findLitRunCS "youtube.com/shorts/".toList wordDashChar s.toList with
        | some r =>
          rw [h4] at h
          have hv : String.mk r = v := by simpa using h
          subst hv
          have h5 := findLitRunCS_some_spec _ _ _ r h4
          exact ⟨mk_ne_empty r h5.1, h5.2⟩
        | none =>
          rw [h4] at h
          exact absurd h (by simp)

lemma findLitRunCS_allclass_none (lit : List Char) (cls : Char → Bool) (c : Char)
    (hc : c ∈ lit) (hcls : cls c = false) :
    ∀ l : List Char, (∀ x ∈ l, cls x = true) → findLitRunCS lit cls l = none := by
  intro l
  induction l with
  | nil => intro _; rfl
  | cons a rest ih =>
    intro hall
    simp only [findLitRunCS]
    by_cases hp : lit.isPrefixOf (a :: rest) = true
    · exfalso
      have hpre : lit <+: a :: rest := List.isPrefixOf_iff_prefix.mp hp
      have h2 := hall c (hpre.subset hc)
      rw [hcls] at h2
      exact Bool.false_ne_true h2
    · rw [if_neg hp]
      exact ih fun x hx => hall x (List.mem_cons_of_mem _ hx)

lemma findLitRunCS_append_none (lit : List Char) (cls : Char → Bool)
    (cL : Char) (hlast : lit.getLast? = some cL) (hcls : cls cL = false) :
    ∀ (s v : List Char),
      (∀ t ∈ s.tails, lit.isPrefixOf t = false) →
      (∀ x ∈ v, cls x = true) →
      findLitRunCS lit cls (s ++ v) = none := by
  intro s
  induction s with
  | nil =>
    intro v _ hv
    exact findLitRunCS_allclass_none lit cls cL (mem_getLast? lit cL hlast) hcls v hv
  | cons a s2 ih =>
    intro v htails hv
    show findLitRunCS lit cls (a :: (s2 ++ v)) = none
    simp only [findLitRunCS]
    by_cases hp : lit.isPrefixOf (a :: (s2 ++ v)) = true
    · exfalso
      have hpre : lit <+: (a :: s2) ++ v := by
        simpa using List.isPrefixOf_iff_prefix.mp hp
      by_cases hlen : lit.length ≤ (a :: s2).length
      · have hps : lit <+: (a :: s2) :=
          List.prefix_of_prefix_length_le hpre (List.prefix_append _ _) hlen
        have h2 : lit.isPrefixOf (a :: s2) = true := List.isPrefixOf_iff_prefix.mpr hps
        have h3 : lit.isPrefixOf (a :: s2) = false :=
          htails (a :: s2) ((List.mem_tails _ _).mpr (List.suffix_refl _))
        rw [h3] at h2
        exact Bool.false_ne_true h2
      · push_neg at hlen
        have hsl : (a :: s2) <+: lit :=
          List.prefix_of_prefix_length_le (List.prefix_append _ _) hpre
            (Nat.le_of_lt hlen)
        obtain ⟨r, hr⟩ := hpre
        obtain ⟨t, ht⟩ := hsl
        have htne : t ≠ [] := by
          intro h0
          rw [h0, List.append_nil] at ht
          rw [← ht] at hlen
          exact Nat.lt_irrefl _ hlen
        have hlast2 : t.getLast? = some cL := by
          rw [← ht] at hlast
          rw [List.getLast?_append] at hlast
          cases ho : t.getLast? with
          | none => exact absurd (List.getLast?_isSome.mpr htne) (by simp [ho])
          | some c0 =>
            rw [ho] at hlast
            simpa using hlast
        have hv2 : v = t ++ r := by
          rw [← ht, List.append_assoc] at hr
          exact (List.append_inj_right hr rfl).symm
        have h4 := hv cL (by
          rw [hv2]
          exact List.mem_append_left _ (mem_getLast? t cL hlast2))
        rw [hcls] at h4
        exact Bool.false_ne_true h4
    · rw [if_neg hp]
      exact ih v
        (fun t ht => htails t (by rw [List.tails_cons]; exact List.mem_cons_of_mem _ ht))
        hv

lemma findLitRunCS_pre_append (lit : List Char) (cls : Char → Bool) :
    ∀ (pre rest0 : List Char),
      (∀ t ∈ pre.tails, t ≠ [] →
        t.length < lit.length ∧ t.isPrefixOf lit = false) →
      findLitRunCS lit cls (pre ++ rest0) = findLitRunCS lit cls rest0 := by
  intro pre
  induction pre with
  | nil => intro rest0 _; rfl
  | cons a p2 ih =>
    intro rest0 hpre
    show findLitRunCS lit cls (a :: (p2 ++ rest0)) = _
    simp only [findLitRunCS]
    have hts := hpre (a :: p2) ((List.mem_tails _ _).mpr (List.suffix_refl _)) (by simp)
    have hp : lit.isPrefixOf (a :: (p2 ++ rest0)) = false := by
      by_contra hcon
      have hp2 : lit.isPrefixOf ((a :: p2) ++ rest0) = true := by
        simpa using Bool.of_not_eq_false hcon
      have hpm := List.isPrefixOf_iff_prefix.mp hp2
      have hsl : (a :: p2) <+: lit :=
        List.prefix_of_prefix_length_le (List.prefix_append _ _) hpm
          (Nat.le_of_lt hts.1)
      have h2 : (a :: p2).isPrefixOf lit = true := List.isPrefixOf_iff_prefix.mpr hsl
      rw [hts.2] at h2
      exact Bool.false_ne_true h2
    rw [hp]
    simp only [Bool.false_eq_true, if_false]
    exact ih rest0
      (fun t ht hne => hpre t (by rw [List.tails_cons]; exact List.mem_cons_of_mem _ ht) hne)

lemma findLitRunCS_self_append (lit : List Char) (cls : Char → Bool)
    (hne : lit ≠ []) (v : List Char) (hv : ∀ x ∈ v, cls x = true)
    (hvne : v ≠ []) :
    findLitRunCS lit cls (lit ++ v) = some v := by
  cases lit with
  | nil => exact absurd rfl hne
  | cons c0 l0 =>
    rw [List.cons_append]
    simp only [findLitRunCS]
    have hp : (c0 :: l0).isPrefixOf (c0 :: (l0 ++ v)) = true := by
      refine List.isPrefixOf_iff_prefix.mpr ?_
      rw [← List.cons_append]
      exact List.prefix_append _ _
    rw [if_pos hp]
    have hdrop : (c0 :: (l0 ++ v)).drop (c0 :: l0).length = v := by
      rw [← List.cons_append]
      exact List.drop_left _ _
    rw [hdrop]
    have htw : v.takeWhile cls = v := List.takeWhile_eq_self_iff.mpr hv
    rw [htw]
    rw [if_neg (fun h => hvne (List.isEmpty_iff.mp h))]

lemma extractYoutubeVideoId_watchUrl (v : String) (hne : v ≠ "")
    (hcls : ∀ c ∈ v.toList, wordDashChar c = true) :
    extractYoutubeVideoId (watchUrl v) = some v := by
  have hto : (watchUrl v).toList =
      "https://www.youtube.com/watch?v=".toList ++ v.toList :=
    String.data_append _ _
  unfold extractYoutubeVideoId
  rw [hto]
  have h1 : findLitRunCS "youtube.com/embed/".toList wordDashChar
      ("https://www.youtube.com/watch?v=".toList ++ v.toList) = none := by
    refine findLitRunCS_append_none _ _ '/' (by decide) (by decide) _ _ ?_ hcls
    decide
  rw [h1]
  have hsplit : ("https://www.youtube.com/watch?v=".toList : List Char) =
      "https://www.".toList ++ "youtube.com/watch?v=".toList := by decide
  have h2 : findLitRunCS "youtube.com/watch?v=".toList wordDashChar
      ("https://www.youtube.com/watch?v=".toList ++ v.toList) = some v.toList := by
    rw [hsplit, List.append_assoc]
    rw [findLitRunCS_pre_append _ _ _ _ (by decide)]
    exact findLitRunCS_self_append _ _ (by decide) _ hcls (toList_ne_nil v hne)
  rw [h2]
  rfl

/-! ## Loop invariants: YouTube -/

lemma ytContentType_cases (s : String) :
    ytContentType s = "short" ∨ ytContentType s = "video" := by
  unfold ytContentType
  by_cases h : containsCS s "/shorts/" = true
  · left; rw [if_pos h]
  · right; rw [if_neg h]

lemma ytCovered_mono {seen ids seen2 ids2 : List String}
    (hs : ∀ u ∈ seen, u ∈ seen2) (hi : ∀ v ∈ ids, v ∈ ids2) (u : String)
    (h : ytCovered seen ids u) : ytCovered seen2 ids2 u := by
  rcases h with h | ⟨v, hv1, hv2, hv3, hv4⟩
  · exact Or.inl (hs u h)
  · exact Or.inr ⟨v, hv1, hi v hv2, hv3, hv4⟩

lemma ytIframesLoop_spec :
    ∀ (l : List IframeEl) (seen ids : List String),
      YtLoopSpec ["video"] seen ids (ytIframesLoop l seen ids) := by
  intro l
  induction l with
  | nil =>
    intro seen ids
    exact ⟨fun c hc => absurd hc (List.not_mem_nil c),
      fun hSI => ⟨List.nodup_nil, fun u hu => absurd hu (List.not_mem_nil u),
        fun u h => h, hSI⟩⟩
  | cons f rest ih =>
    intro seen ids
    by_cases hg : (seen.contains (f.src.getD "") ||
        (truthy (extractYoutubeVideoId (f.src.getD "")) &&
          ids.contains ((extractYoutubeVideoId (f.src.getD "")).getD ""))) = true
    · have hstep : ytIframesLoop (f :: rest) seen ids = ytIframesLoop rest seen ids := by
        simp only [ytIframesLoop]; rw [if_pos hg]
      rw [hstep]
      exact ih seen ids
    · have hg2 := hg
      simp only [Bool.or_eq_true, not_or, Bool.and_eq_true, not_and] at hg2
      obtain ⟨hA, hB⟩ := hg2
      by_cases htr : truthy (extractYoutubeVideoId (f.src.getD "")) = true
      · -- a video id was extracted: the emitted url is the watch URL
        cases hve : extractYoutubeVideoId (f.src.getD "") with
        | none => rw [hve] at htr; exact absurd htr (by simp [truthy])
        | some w =>
          have hwne : w ≠ "" := (extractYoutubeVideoId_spec _ _ hve).1
          have hwcls := (extractYoutubeVideoId_spec _ _ hve).2
          have hvw : extractYoutubeVideoId (watchUrl w) = some w :=
            extractYoutubeVideoId_watchUrl w hwne hwcls
          have hbne : (w != "") = true := by simpa using hwne
          rcases hrec : ytIframesLoop rest (f.src.getD "" :: seen) (w :: ids)
            with ⟨cs, seen2, ids3⟩
          have hstep : ytIframesLoop (f :: rest) seen ids =
              ({ platform := "youtube", contentType := "video",
                 url := some (watchUrl w), embedHtml := some f.html,
                 thumbnailUrl := some (thumbUrl w),
                 metadata := some [("video_id", w)] } :: cs, seen2, ids3) := by
            simp only [ytIframesLoop]
            rw [if_neg hg, hve]
            simp only [truthy, Option.getD_some]
            rw [if_pos hbne, if_pos hbne, if_pos hbne, if_pos hbne, hrec]
          rw [hstep]
          constructor
          · intro c hc
            rcases List.mem_cons.mp hc with h3 | h3
            · subst h3; exact ⟨rfl, by simp⟩
            · exact (ih (f.src.getD "" :: seen) (w :: ids)).1 c (by rw [hrec]; exact h3)
          · intro hSI
            have hSI2 : ytSeenIds (f.src.getD "" :: seen) (w :: ids) := by
              intro u hu x hx
              rcases List.mem_cons.mp hu with h4 | h4
              · subst h4
                rw [hve] at hx
                exact (Option.some_inj.mp hx) ▸ List.mem_cons_self _ _
              · exact List.mem_cons_of_mem _ (hSI u h4 x hx)
            have ihspec := (ih (f.src.getD "" :: seen) (w :: ids)).2 hSI2
            rw [hrec] at ihspec
            obtain ⟨hnd, hfr, hcm, hSIo⟩ := ihspec
            have hcov0 : ytCovered (f.src.getD "" :: seen) (w :: ids) (watchUrl w) :=
              Or.inr ⟨w, hwne, List.mem_cons_self _ _, rfl, hvw⟩
            have hncov : ¬ ytCovered seen ids (watchUrl w) := by
              intro hcov
              rcases hcov with hin | ⟨x, hx1, hx2, hx3, hx4⟩
              · have := hSI _ hin w hvw
                exact hB (by rw [hve]; simpa [truthy] using hwne)
                  (by rw [hve]; simpa using List.elem_iff.mpr this)
              · rw [hvw] at hx4
                have hxw : x = w := by simpa using hx4.symm
                subst hxw
                exact hB (by rw [hve]; simpa [truthy] using hwne)
                  (by rw [hve]; simpa using List.elem_iff.mpr hx2)
            have hmono : ∀ u, ytCovered seen ids u →
                ytCovered (f.src.getD "" :: seen) (w :: ids) u :=
              fun u => ytCovered_mono (fun x hx => List.mem_cons_of_mem _ hx)
                (fun x hx => List.mem_cons_of_mem _ hx) u
            refine ⟨?_, ?_, ?_, hSIo⟩
            · show (watchUrl w :: urlsOf cs).Nodup
              refine List.nodup_cons.mpr ⟨?_, hnd⟩
              intro hm
              exact (hfr _ hm).1 hcov0
            · intro u hu
              have hu2 : u ∈ watchUrl w :: urlsOf cs := hu
              rcases List.mem_cons.mp hu2 with h3 | h3
              · subst h3
                exact ⟨hncov, hcm _ hcov0⟩
              · exact ⟨fun hcov => (hfr u h3).1 (hmono u hcov), (hfr u h3).2⟩
            · intro u hcov
              exact hcm u (hmono u hcov)
      · -- no (truthy) video id: the emitted url is the raw src
        rcases hrec : ytIframesLoop rest (f.src.getD "" :: seen) ids
          with ⟨cs, seen2, ids3⟩
        have hstep : ytIframesLoop (f :: rest) seen ids =
            ({ platform := "youtube", contentType := "video",
               url := some (f.src.getD ""), embedHtml := some f.html } :: cs,
             seen2, ids3) := by
          simp only [ytIframesLoop]
          rw [if_neg hg]
          rw [if_neg htr, if_neg htr, if_neg htr, if_neg htr, hrec]
        rw [hstep]
        constructor
        · intro c hc
          rcases List.mem_cons.mp hc with h3 | h3
          · subst h3; exact ⟨rfl, by simp⟩
          · exact (ih (f.src.getD "" :: seen) ids).1 c (by rw [hrec]; exact h3)
        · intro hSI
          have hSI2 : ytSeenIds (f.src.getD "" :: seen) ids := by
            intro u hu x hx
            rcases List.mem_cons.mp hu with h4 | h4
            · subst h4
              exact absurd (by rw [hx]; simpa [truthy] using
                (extractYoutubeVideoId_spec _ _ hx).1) htr
            · exact hSI u h4 x hx
          have ihspec := (ih (f.src.getD "" :: seen) ids).2 hSI2
          rw [hrec] at ihspec
          obtain ⟨hnd, hfr, hcm, hSIo⟩ := ihspec
          have hcov0 : ytCovered (f.src.getD "" :: seen) ids (f.src.getD "") :=
            Or.inl (List.mem_cons_self _ _)
          have hncov : ¬ ytCovered seen ids (f.src.getD "") := by
            intro hcov
            rcases hcov with hin | ⟨x, hx1, hx2, hx3, hx4⟩
            · exact hA (List.elem_iff.mpr hin)
            · apply htr
              rw [hx4]
              simpa [truthy] using hx1
          have hmono : ∀ u, ytCovered seen ids u →
              ytCovered (f.src.getD "" :: seen) ids u :=
            fun u => ytCovered_mono (fun x hx => List.mem_cons_of_mem _ hx)
              (fun x hx => hx) u
          refine ⟨?_, ?_, ?_, hSIo⟩
          · show (f.src.getD "" :: urlsOf cs).Nodup
            refine List.nodup_cons.mpr ⟨?_, hnd⟩
            intro hm
            exact (hfr _ hm).1 hcov0
          · intro u hu
            have hu2 : u ∈ f.src.getD "" :: urlsOf cs := hu
            rcases List.mem_cons.mp hu2 with h3 | h3
            · subst h3
              exact ⟨hncov, hcm _ hcov0⟩
            · exact ⟨fun hcov => (hfr u h3).1 (hmono u hcov), (hfr u h3).2⟩
          · intro u hcov
            exact hcm u (hmono u hcov)

lemma ytLinksLoop_spec :
    ∀ (l : List AnchorEl) (seen ids : List String),
      YtLoopSpec ["short", "video"] seen ids (ytLinksLoop l seen ids) := by
  intro l
  induction l with
  | nil =>
    intro seen ids
    exact ⟨fun c hc => absurd hc (List.not_mem_nil c),
      fun hSI => ⟨List.nodup_nil, fun u hu => absurd hu (List.not_mem_nil u),
        fun u h => h, hSI⟩⟩
  | cons a rest ih =>
    intro seen ids
    by_cases hg : (a.href.getD "" != "" && !(seen.contains (a.href.getD "")) &&
        !(vidIn (extractYoutubeVideoId (a.href.getD "")) ids)) = true
    · have hg2 := hg
      simp only [Bool.and_eq_true, Bool.not_eq_true'] at hg2
      obtain ⟨⟨hne, hns⟩, hnv⟩ := hg2
      have hnotseen : a.href.getD "" ∉ seen := by
        intro h
        have hct : seen.contains (a.href.getD "") = true := List.elem_iff.mpr h
        rw [hns] at hct
        exact Bool.false_ne_true hct
      by_cases htr : truthy (extractYoutubeVideoId (a.href.getD "")) = true
      · cases hve : extractYoutubeVideoId (a.href.getD "") with
        | none => rw [hve] at htr; exact absurd htr (by simp [truthy])
        | some w =>
          have hwne : w ≠ "" := (extractYoutubeVideoId_spec _ _ hve).1
          have hbne : (w != "") = true := by simpa using hwne
          rcases hrec : ytLinksLoop rest (a.href.getD "" :: seen) (w :: ids)
            with ⟨cs, seen2, ids3⟩
          have hstep : ytLinksLoop (a :: rest) seen ids =
              ({ platform := "youtube", contentType := ytContentType (a.href.getD ""),
                 url := some (a.href.getD ""),
                 thumbnailUrl := some (thumbUrl w), caption := textOrNone a.text,
                 metadata := some [("video_id", w)] } :: cs, seen2, ids3) := by
            simp only [ytLinksLoop]
            rw [if_pos hg, hve]
            simp only [truthy, Option.getD_some]
            rw [if_pos hbne, if_pos hbne, if_pos hbne, hrec]
          rw [hstep]
          constructor
          · intro c hc
            rcases List.mem_cons.mp hc with h3 | h3
            · subst h3
              exact ⟨rfl, by
                rcases ytContentType_cases (a.href.getD "") with h | h <;> simp [h]⟩
            · exact (ih (a.href.getD "" :: seen) (w :: ids)).1 c (by rw [hrec]; exact h3)
          · intro hSI
            have hSI2 : ytSeenIds (a.href.getD "" :: seen) (w :: ids) := by
              intro u hu x hx
              rcases List.mem_cons.mp hu with h4 | h4
              · subst h4
                rw [hve] at hx
                exact (Option.some_inj.mp hx) ▸ List.mem_cons_self _ _
              · exact List.mem_cons_of_mem _ (hSI u h4 x hx)
            have ihspec := (ih (a.href.getD "" :: seen) (w :: ids)).2 hSI2
            rw [hrec] at ihspec
            obtain ⟨hnd, hfr, hcm, hSIo⟩ := ihspec
            have hcov0 : ytCovered (a.href.getD "" :: seen) (w :: ids) (a.href.getD "") :=
              Or.inl (List.mem_cons_self _ _)
            have hncov : ¬ ytCovered seen ids (a.href.getD "") := by
              intro hcov
              rcases hcov with hin | ⟨x, hx1, hx2, hx3, hx4⟩
              · exact hnotseen hin
              · rw [hx4] at hnv
                simp only [vidIn] at hnv
                have hct : ids.contains x = true := List.elem_iff.mpr hx2
                rw [hnv] at hct
                exact Bool.false_ne_true hct
            have hmono : ∀ u, ytCovered seen ids u →
                ytCovered (a.href.getD "" :: seen) (w :: ids) u :=
              fun u => ytCovered_mono (fun x hx => List.mem_cons_of_mem _ hx)
                (fun x hx => List.mem_cons_of_mem _ hx) u
            refine ⟨?_, ?_, ?_, hSIo⟩
            · show (a.href.getD "" :: urlsOf cs).Nodup
              refine List.nodup_cons.mpr ⟨?_, hnd⟩
              intro hm
              exact (hfr _ hm).1 hcov0
            · intro u hu
              have hu2 : u ∈ a.href.getD "" :: urlsOf cs := hu
              rcases List.mem_cons.mp hu2 with h3 | h3
              · subst h3
                exact ⟨hncov, hcm _ hcov0⟩
              · exact ⟨fun hcov => (hfr u h3).1 (hmono u hcov), (hfr u h3).2⟩
            · intro u hcov
              exact hcm u (hmono u hcov)
      · rcases hrec : ytLinksLoop rest (a.href.getD "" :: seen) ids
          with ⟨cs, seen2, ids3⟩
        have hstep : ytLinksLoop (a :: rest) seen ids =
            ({ platform := "youtube", contentType := ytContentType (a.href.getD ""),
               url := some (a.href.getD ""),
               caption := textOrNone a.text } :: cs, seen2, ids3) := by
          simp only [ytLinksLoop]
          rw [if_pos hg]
          rw [if_neg htr, if_neg htr, if_neg htr, hrec]
        rw [hstep]
        constructor
        · intro c hc
          rcases List.mem_cons.mp hc with h3 | h3
          · subst h3
            exact ⟨rfl, by
              rcases ytContentType_cases (a.href.getD "") with h | h <;> simp [h]⟩
          · exact (ih (a.href.getD "" :: seen) ids).1 c (by rw [hrec]; exact h3)
        · intro hSI
          have hSI2 : ytSeenIds (a.href.getD "" :: seen) ids := by
            intro u hu x hx
            rcases List.mem_cons.mp hu with h4 | h4
            · subst h4
              exact absurd (by rw [hx]; simpa [truthy] using
                (extractYoutubeVideoId_spec _ _ hx).1) htr
            · exact hSI u h4 x hx
          have ihspec := (ih (a.href.getD "" :: seen) ids).2 hSI2
          rw [hrec] at ihspec
          obtain ⟨hnd, hfr, hcm, hSIo⟩ := ihspec
          have hcov0 : ytCovered (a.href.getD "" :: seen) ids (a.href.getD "") :=
            Or.inl (List.mem_cons_self _ _)
          have hncov : ¬ ytCovered seen ids (a.href.getD "") := by
            intro hcov
            rcases hcov with hin | ⟨x, hx1, hx2, hx3, hx4⟩
            · exact hnotseen hin
            · apply htr
              rw [hx4]
              simpa [truthy] using hx1
          have hmono : ∀ u, ytCovered seen ids u →
              ytCovered (a.href.getD "" :: seen) ids u :=
            fun u => ytCovered_mono (fun x hx => List.mem_cons_of_mem _ hx)
              (fun x hx => hx) u
          refine ⟨?_, ?_, ?_, hSIo⟩
          · show (a.href.getD "" :: urlsOf cs).Nodup
            refine List.nodup_cons.mpr ⟨?_, hnd⟩
            intro hm
            exact (hfr _ hm).1 hcov0
          · intro u hu
            have hu2 : u ∈ a.href.getD "" :: urlsOf cs := hu
            rcases List.mem_cons.mp hu2 with h3 | h3
            · subst h3
              exact ⟨hncov, hcm _ hcov0⟩
            · exact ⟨fun hcov => (hfr u h3).1 (hmono u hcov), (hfr u h3).2⟩
          · intro u hcov
            exact hcm u (hmono u hcov)
    · have hstep : ytLinksLoop (a :: rest) seen ids = ytLinksLoop rest seen ids := by
        simp only [ytLinksLoop]; rw [if_neg hg]
      rw [hstep]
      exact ih seen ids

lemma ytRegexLoop_spec :
    ∀ (l : List String) (seen ids : List String),
      YtLoopSpec ["short", "video"] seen ids (ytRegexLoop l seen ids) := by
  intro l
  induction l with
  | nil =>
    intro seen ids
    exact ⟨fun c hc => absurd hc (List.not_mem_nil c),
      fun hSI => ⟨List.nodup_nil, fun u hu => absurd hu (List.not_mem_nil u),
        fun u h => h, hSI⟩⟩
  | cons s rest ih =>
    intro seen ids
    by_cases hg : (seen.contains s ||
        (truthy (extractYoutubeVideoId s) &&
          ids.contains ((extractYoutubeVideoId s).getD ""))) = true
    · have hstep : ytRegexLoop (s :: rest) seen ids = ytRegexLoop rest seen ids := by
        simp only [ytRegexLoop]; rw [if_pos hg]
      rw [hstep]
      exact ih seen ids
    · have hg2 := hg
      simp only [Bool.or_eq_true, not_or, Bool.and_eq_true, not_and] at hg2
      obtain ⟨hA, hB⟩ := hg2
      have hncov : ¬ ytCovered seen ids s := by
        intro hcov
        rcases hcov with hin | ⟨x, hx1, hx2, hx3, hx4⟩
        · exact hA (List.elem_iff.mpr hin)
        · exact hB (by rw [hx4]; simpa [truthy] using hx1)
            (by rw [hx4]; simpa using List.elem_iff.mpr hx2)
      by_cases htr : truthy (extractYoutubeVideoId s) = true
      · cases hve : extractYoutubeVideoId s with
        | none => rw [hve] at htr; exact absurd htr (by simp [truthy])
        | some w =>
          have hwne : w ≠ "" := (extractYoutubeVideoId_spec _ _ hve).1
          have hbne : (w != "") = true := by simpa using hwne
          rcases hrec : ytRegexLoop rest (s :: seen) (w :: ids)
            with ⟨cs, seen2, ids3⟩
          have hstep : ytRegexLoop (s :: rest) seen ids =
              ({ platform := "youtube", contentType := ytContentType s,
                 url := some s, thumbnailUrl := some (thumbUrl w),
                 metadata := some [("video_id", w)] } :: cs, seen2, ids3) := by
            simp only [ytRegexLoop]
            rw [if_neg hg, hve]
            simp only [truthy, Option.getD_some]
            rw [if_pos hbne, if_pos hbne, if_pos hbne, hrec]
          rw [hstep]
          constructor
          · intro c hc
            rcases List.mem_cons.mp hc with h3 | h3
            · subst h3
              exact ⟨rfl, by rcases ytContentType_cases s with h | h <;> simp [h]⟩
            · exact (ih (s :: seen) (w :: ids)).1 c (by rw [hrec]; exact h3)
          · intro hSI
            have hSI2 : ytSeenIds (s :: seen) (w :: ids) := by
              intro u hu x hx
              rcases List.mem_cons.mp hu with h4 | h4
              · subst h4
                rw [hve] at hx
                exact (Option.some_inj.mp hx) ▸ List.mem_cons_self _ _
              · exact List.mem_cons_of_mem _ (hSI u h4 x hx)
            have ihspec := (ih (s :: seen) (w :: ids)).2 hSI2
            rw [hrec] at ihspec
            obtain ⟨hnd, hfr, hcm, hSIo⟩ := ihspec
            have hcov0 : ytCovered (s :: seen) (w :: ids) s :=
              Or.inl (List.mem_cons_self _ _)
            have hmono : ∀ u, ytCovered seen ids u →
                ytCovered (s :: seen) (w :: ids) u :=
              fun u => ytCovered_mono (fun x hx => List.mem_cons_of_mem _ hx)
                (fun x hx => List.mem_cons_of_mem _ hx) u
            refine ⟨?_, ?_, ?_, hSIo⟩
            · show (s :: urlsOf cs).Nodup
              refine List.nodup_cons.mpr ⟨?_, hnd⟩
              intro hm
              exact (hfr _ hm).1 hcov0
            · intro u hu
              have hu2 : u ∈ s :: urlsOf cs := hu
              rcases List.mem_cons.mp hu2 with h3 | h3
              · subst h3
                exact ⟨hncov, hcm _ hcov0⟩
              · exact ⟨fun hcov => (hfr u h3).1 (hmono u hcov), (hfr u h3).2⟩
            · intro u hcov
              exact hcm u (hmono u hcov)
      · rcases hrec : ytRegexLoop rest (s :: seen) ids with ⟨cs, seen2, ids3⟩
        have hstep : ytRegexLoop (s :: rest) seen ids =
            ({ platform := "youtube", contentType := ytContentType s,
               url := some s } :: cs, seen2, ids3) := by
          simp only [ytRegexLoop]
          rw [if_neg hg]
          rw [if_neg htr, if_neg htr, if_neg htr, hrec]
        rw [hstep]
        constructor
        · intro c hc
          rcases List.mem_cons.mp hc with h3 | h3
          · subst h3
            exact ⟨rfl, by rcases ytContentType_cases s with h | h <;> simp [h]⟩
          · exact (ih (s :: seen) ids).1 c (by rw [hrec]; exact h3)
        · intro hSI
          have hSI2 : ytSeenIds (s :: seen) ids := by
            intro u hu x hx
            rcases List.mem_cons.mp hu with h4 | h4
            · subst h4
              exact absurd (by rw [hx]; simpa [truthy] using
                (extractYoutubeVideoId_spec _ _ hx).1) htr
            · exact hSI u h4 x hx
          have ihspec := (ih (s :: seen) ids).2 hSI2
          rw [hrec] at ihspec
          obtain ⟨hnd, hfr, hcm, hSIo⟩ := ihspec
          have hcov0 : ytCovered (s :: seen) ids s :=
            Or.inl (List.mem_cons_self _ _)
          have hmono : ∀ u, ytCovered seen ids u →
              ytCovered (s :: seen) ids u :=
            fun u => ytCovered_mono (fun x hx => List.mem_cons_of_mem _ hx)
              (fun x hx => hx) u
          refine ⟨?_, ?_, ?_, hSIo⟩
          · show (s :: urlsOf cs).Nodup
            refine List.nodup_cons.mpr ⟨?_, hnd⟩
            intro hm
            exact (hfr _ hm).1 hcov0
          · intro u hu
            have hu2 : u ∈ s :: urlsOf cs := hu
            rcases List.mem_cons.mp hu2 with h3 | h3
            · subst h3
              exact ⟨hncov, hcm _ hcov0⟩
            · exact ⟨fun hcov => (hfr u h3).1 (hmono u hcov), (hfr u h3).2⟩
          · intro u hcov
            exact hcm u (hmono u hcov)

/-! ## Assembly lemmas -/

lemma urlsOf_append (l1 l2 : List SocialContentData) :
    urlsOf (l1 ++ l2) = urlsOf l1 ++ urlsOf l2 := by
  simp [urlsOf, List.filterMap_append]

lemma disjoint_of_sub_fresh {A B seen : List String}
    (hA : ∀ u ∈ A, u ∈ seen) (hB : ∀ u ∈ B, u ∉ seen) : A.Disjoint B :=
  fun _ hu hb => hB _ hb (hA _ hu)

lemma withPositions_mem :
    ∀ (l : List SocialContentData) (n : Nat) (c : SocialContentData), c ∈ l →
      ∃ c2 ∈ withPositions n l, c2.platform = c.platform ∧ c2.url = c.url := by
  intro l
  induction l with
  | nil => intro n c hc; exact absurd hc (List.not_mem_nil c)
  | cons x rest ih =>
    intro n c hc
    simp only [withPositions]
    rcases List.mem_cons.mp hc with h | h
    · subst h
      exact ⟨{ c with positionInArticle := n }, List.mem_cons_self _ _, rfl, rfl⟩
    · obtain ⟨c2, hc2, hp, hu⟩ := ih (n + 1) c h
      exact ⟨c2, List.mem_cons_of_mem _ hc2, hp, hu⟩

lemma extractTiktok_bq_url (soup : Soup) (raw : String)
    (f : String → String → List String) (bq : BlockquoteEl)
    (hmem : bq ∈ soup.blockquotes) (hsel : tiktokBqSel bq = true) (u : String)
    (hurl : tiktokBqUrl bq = some u) :
    ∃ c ∈ extractTiktok soup raw f, c.platform = "tiktok" ∧ c.url = some u := by
  rcases h1 : tiktokIframesLoop (soup.iframes.filter tiktokIframeSel) [] with ⟨a, seen1⟩
  rcases h2 : tiktokBlockquotesLoop (soup.blockquotes.filter tiktokBqSel) seen1
    with ⟨b, seen2⟩
  rcases h3 : tiktokLinksLoop (soup.anchors.filter tiktokLinkSel) seen2 with ⟨c0, seen3⟩
  rcases h4 : tiktokRegexLoop (regexUrls f raw tiktokRegexPattern) seen3 with ⟨d, seen4⟩
  have hext : extractTiktok soup raw f = ((a ++ b) ++ c0) ++ d := by
    simp only [extractTiktok, h1, h2, h3, h4]
  have hmem2 : bq ∈ soup.blockquotes.filter tiktokBqSel :=
    List.mem_filter.mpr ⟨hmem, hsel⟩
  have hhits := tiktokBlockquotesLoop_hits (soup.blockquotes.filter tiktokBqSel)
    seen1 bq hmem2 u hurl
  rw [h2] at hhits
  rcases hhits with ⟨c, hc, hcu⟩ | hseen
  · have s2 := tiktokBlockquotesLoop_spec (soup.blockquotes.filter tiktokBqSel) seen1
    rw [h2] at s2
    refine ⟨c, ?_, (s2.1 c hc).1, hcu⟩
    rw [hext]
    exact List.mem_append_left _ (List.mem_append_left _ (List.mem_append_right _ hc))
  · have hcov := tiktokIframesLoop_seen (soup.iframes.filter tiktokIframeSel) [] u
      (by rw [h1]; exact hseen)
    rcases hcov with h0 | ⟨c, hc, hcu⟩
    · exact absurd h0 (List.not_mem_nil u)
    · rw [h1] at hc
      have s1 := tiktokIframesLoop_spec (soup.iframes.filter tiktokIframeSel) []
      rw [h1] at s1
      refine ⟨c, ?_, (s1.1 c hc).1, hcu⟩
      rw [hext]
      exact List.mem_append_left _ (List.mem_append_left _ (List.mem_append_left _ hc))

/-- C9: every input document containing a TikTok embed blockquote with
data-video-id 123 and an absent (or empty) cite attribute yields a tiktok
reference whose url is exactly the synthesized video URL. -/
theorem extractAll_tiktok_videoid (soup : Soup) (raw : String)
    (f : String → String → List String) (bq : BlockquoteEl)
    (hmem : bq ∈ soup.blockquotes) (hsel : tiktokBqSel bq = true)
    (hcite : bq.cite.getD "" = "") (hvid : bq.dataVideoId = some "123") :
    ∃ c ∈ extractAll soup raw f, c.platform = "tiktok" ∧
      c.url = some "https://www.tiktok.com/video/123" := by
  have hurl : tiktokBqUrl bq = some "https://www.tiktok.com/video/123" := by
    unfold tiktokBqUrl
    rw [hcite, hvid]
    decide
  obtain ⟨c, hc, hp, hu⟩ := extractTiktok_bq_url soup raw f bq hmem hsel _ hurl
  have hbig : c ∈ extractTiktok soup raw f ++ extractInstagram soup raw f ++
      extractTwitter soup raw f ++ extractYoutube soup raw f ++
      extractScreenshots soup := by
    exact List.mem_append_left _ (List.mem_append_left _ (List.mem_append_left _
      (List.mem_append_left _ hc)))
  obtain ⟨c2, hc2, hp2, hu2⟩ := withPositions_mem _ 0 c hbig
  exact ⟨c2, hc2, hp2.trans hp, hu2.trans hu⟩

/-- C9 witness: a document holding exactly the TikTok blockquote with
data-video-id 123 yields a reference with the synthesized URL. -/
theorem extractAll_tiktok_videoid_witness :
    ((extractAll sampleBqSoup "" fditerEmpty).filter
      (fun c => c.platform == "tiktok" &&
        c.url == some "https://www.tiktok.com/video/123")) ≠ [] := by
  obtain ⟨c, hc, hp, hu⟩ :=
    extractAll_tiktok_videoid sampleBqSoup "" fditerEmpty sampleBq
      (by simp [sampleBqSoup]) (by decide) (by decide) (by decide)
  intro hnil
  have hm : c ∈ (extractAll sampleBqSoup "" fditerEmpty).filter
      (fun c => c.platform == "tiktok" &&
        c.url == some "https://www.tiktok.com/video/123") :=
    List.mem_filter.mpr ⟨hc, by simp [hp, hu]⟩
  rw [hnil] at hm
  exact absurd hm (List.not_mem_nil c)

/-! ## Extractor-level invariants -/

lemma nodup_append_pred {α : Type} {A B : List α} {P : α → Prop}
    (hA : A.Nodup) (hAs : ∀ u ∈ A, P u) (hB : B.Nodup) (hBf : ∀ u ∈ B, ¬ P u) :
    (A ++ B).Nodup := by
  rw [List.nodup_append]
  exact ⟨hA, hB, fun u huA huB => hBf u huB (hAs u huA)⟩

lemma mem_append_of {α : Type} {A B : List α} {P : α → Prop}
    (hA : ∀ u ∈ A, P u) (hB : ∀ u ∈ B, P u) : ∀ u ∈ A ++ B, P u :=
  fun u hu => (List.mem_append.mp hu).elim (hA u) (hB u)

lemma ct_ne_screenshot {ct : String} {cts : List String} (h : ct ∈ cts)
    (hno : "screenshot" ∉ cts) : ct ≠ "screenshot" :=
  fun he => hno (he ▸ h)

lemma extractTiktok_spec (soup : Soup) (html : String)
    (f : String → String → List String) :
    (∀ c ∈ extractTiktok soup html f,
      c.platform = "tiktok" ∧ c.contentType ≠ "screenshot") ∧
    (urlsOf (extractTiktok soup html f)).Nodup := by
  rcases h1 : tiktokIframesLoop (soup.iframes.filter tiktokIframeSel) []
    with ⟨a, seen1⟩
  rcases h2 : tiktokBlockquotesLoop (soup.blockquotes.filter tiktokBqSel) seen1
    with ⟨b, seen2⟩
  rcases h3 : tiktokLinksLoop (soup.anchors.filter tiktokLinkSel) seen2
    with ⟨c, seen3⟩
  rcases h4 : tiktokRegexLoop (regexUrls f html tiktokRegexPattern) seen3
    with ⟨d, seen4⟩
  have hE : extractTiktok soup html f = a ++ b ++ c ++ d := by
    simp only [extractTiktok]; rw [h1, h2, h3, h4]
  have s1 := tiktokIframesLoop_spec (soup.iframes.filter tiktokIframeSel) []
  rw [h1] at s1
  have s2 := tiktokBlockquotesLoop_spec (soup.blockquotes.filter tiktokBqSel) seen1
  rw [h2] at s2
  have s3 := tiktokLinksLoop_spec (soup.anchors.filter tiktokLinkSel) seen2
  rw [h3] at s3
  have s4 := tiktokRegexLoop_spec (regexUrls f html tiktokRegexPattern) seen3
  rw [h4] at s4
  obtain ⟨p1, n1, f1, m1⟩ := s1
  obtain ⟨p2, n2, f2, m2⟩ := s2
  obtain ⟨p3, n3, f3, m3⟩ := s3
  obtain ⟨p4, n4, f4, m4⟩ := s4
  rw [hE]
  constructor
  · exact mem_append_of (mem_append_of (mem_append_of
      (fun x hx => ⟨(p1 x hx).1, ct_ne_screenshot (p1 x hx).2 (by decide)⟩)
      (fun x hx => ⟨(p2 x hx).1, ct_ne_screenshot (p2 x hx).2 (by decide)⟩))
      (fun x hx => ⟨(p3 x hx).1, ct_ne_screenshot (p3 x hx).2 (by decide)⟩))
      (fun x hx => ⟨(p4 x hx).1, ct_ne_screenshot (p4 x hx).2 (by decide)⟩)
  · rw [urlsOf_append, urlsOf_append, urlsOf_append]
    have hA1 : ∀ u ∈ urlsOf a, u ∈ seen1 := fun u hu => (f1 u hu).2
    have N2 : (urlsOf a ++ urlsOf b).Nodup :=
      nodup_append_pred n1 hA1 n2 (fun u hu => (f2 u hu).1)
    have S2 : ∀ u ∈ urlsOf a ++ urlsOf b, u ∈ seen2 :=
      mem_append_of (fun u hu => m2 u (hA1 u hu)) (fun u hu => (f2 u hu).2)
    have N3 : (urlsOf a ++ urlsOf b ++ urlsOf c).Nodup :=
      nodup_append_pred N2 S2 n3 (fun u hu => (f3 u hu).1)
    have S3 : ∀ u ∈ urlsOf a ++ urlsOf b ++ urlsOf c, u ∈ seen3 :=
      mem_append_of (fun u hu => m3 u (S2 u hu)) (fun u hu => (f3 u hu).2)
    exact nodup_append_pred N3 S3 n4 (fun u hu => (f4 u hu).1)

lemma extractInstagram_spec (soup : Soup) (html : String)
    (f : String → String → List String) :
    (∀ c ∈ extractInstagram soup html f,
      c.platform = "instagram" ∧ c.contentType ≠ "screenshot") ∧
    (urlsOf (extractInstagram soup html f)).Nodup := by
  rcases h1 : igBlockquotesLoop (soup.blockquotes.filter igBqSel) []
    with ⟨a, seen1⟩
  rcases h2 : igIframesLoop (soup.iframes.filter igIframeSel) seen1
    with ⟨b, seen2⟩
  rcases h3 : igLinksLoop (soup.anchors.filter igLinkSelP) seen2
    with ⟨c1, seen3⟩
  rcases h4 : igLinksLoop (soup.anchors.filter igLinkSelReel) seen3
    with ⟨c2, seen4⟩
  rcases h5 : igLinksLoop (soup.anchors.filter igLinkSelTv) seen4
    with ⟨c3, seen5⟩
  rcases h6 : igRegexLoop (regexUrls f html igRegexPattern) seen5
    with ⟨d, seen6⟩
  have hE : extractInstagram soup html f = a ++ b ++ c1 ++ c2 ++ c3 ++ d := by
    simp only [extractInstagram]; rw [h1, h2, h3, h4, h5, h6]
  have s1 := igBlockquotesLoop_spec (soup.blockquotes.filter igBqSel) []
  rw [h1] at s1
  have s2 := igIframesLoop_spec (soup.iframes.filter igIframeSel) seen1
  rw [h2] at s2
  have s3 := igLinksLoop_spec (soup.anchors.filter igLinkSelP) seen2
  rw [h3] at s3
  have s4 := igLinksLoop_spec (soup.anchors.filter igLinkSelReel) seen3
  rw [h4] at s4
  have s5 := igLinksLoop_spec (soup.anchors.filter igLinkSelTv) seen4
  rw [h5] at s5
  have s6 := igRegexLoop_spec (regexUrls f html igRegexPattern) seen5
  rw [h6] at s6
  obtain ⟨p1, n1, f1, m1⟩ := s1
  obtain ⟨p2, n2, f2, m2⟩ := s2
  obtain ⟨p3, n3, f3, m3⟩ := s3
  obtain ⟨p4, n4, f4, m4⟩ := s4
  obtain ⟨p5, n5, f5, m5⟩ := s5
  obtain ⟨p6, n6, f6, m6⟩ := s6
  rw [hE]
  constructor
  · exact mem_append_of (mem_append_of (mem_append_of (mem_append_of (mem_append_of
      (fun x hx => ⟨(p1 x hx).1, ct_ne_screenshot (p1 x hx).2 (by decide)⟩)
      (fun x hx => ⟨(p2 x hx).1, ct_ne_screenshot (p2 x hx).2 (by decide)⟩))
      (fun x hx => ⟨(p3 x hx).1, ct_ne_screenshot (p3 x hx).2 (by decide)⟩))
      (fun x hx => ⟨(p4 x hx).1, ct_ne_screenshot (p4 x hx).2 (by decide)⟩))
      (fun x hx => ⟨(p5 x hx).1, ct_ne_screenshot (p5 x hx).2 (by decide)⟩))
      (fun x hx => ⟨(p6 x hx).1, ct_ne_screenshot (p6 x hx).2 (by decide)⟩)
  · rw [urlsOf_append, urlsOf_append, urlsOf_append, urlsOf_append, urlsOf_append]
    have hA1 : ∀ u ∈ urlsOf a, u ∈ seen1 := fun u hu => (f1 u hu).2
    have N2 : (urlsOf a ++ urlsOf b).Nodup :=
      nodup_append_pred n1 hA1 n2 (fun u hu => (f2 u hu).1)
    have S2 : ∀ u ∈ urlsOf a ++ urlsOf b, u ∈ seen2 :=
      mem_append_of (fun u hu => m2 u (hA1 u hu)) (fun u hu => (f2 u hu).2)
    have N3 : (urlsOf a ++ urlsOf b ++ urlsOf c1).Nodup :=
      nodup_append_pred N2 S2 n3 (fun u hu => (f3 u hu).1)
    have S3 : ∀ u ∈ urlsOf a ++ urlsOf b ++ urlsOf c1, u ∈ seen3 :=
      mem_append_of (fun u hu => m3 u (S2 u hu)) (fun u hu => (f3 u hu).2)
    have N4 : (urlsOf a ++ urlsOf b ++ urlsOf c1 ++ urlsOf c2).Nodup :=
      nodup_append_pred N3 S3 n4 (fun u hu => (f4 u hu).1)
    have S4 : ∀ u ∈ urlsOf a ++ urlsOf b ++ urlsOf c1 ++ urlsOf c2, u ∈ seen4 :=
      mem_append_of (fun u hu => m4 u (S3 u hu)) (fun u hu => (f4 u hu).2)
    have N5 : (urlsOf a ++ urlsOf b ++ urlsOf c1 ++ urlsOf c2 ++ urlsOf c3).Nodup :=
      nodup_append_pred N4 S4 n5 (fun u hu => (f5 u hu).1)
    have S5 : ∀ u ∈ urlsOf a ++ urlsOf b ++ urlsOf c1 ++ urlsOf c2 ++ urlsOf c3,
        u ∈ seen5 :=
      mem_append_of (fun u hu => m5 u (S4 u hu)) (fun u hu => (f5 u hu).2)
    exact nodup_append_pred N5 S5 n6 (fun u hu => (f6 u hu).1)

lemma extractTwitter_spec (soup : Soup) (html : String)
    (f : String → String → List String) :
    (∀ c ∈ extractTwitter soup html f,
      c.platform = "twitter" ∧ c.contentType ≠ "screenshot") ∧
    (urlsOf (extractTwitter soup html f)).Nodup := by
  rcases h1 : twBlockquotesLoop (soup.blockquotes.filter twBqSel) []
    with ⟨a, seen1⟩
  rcases h2 : twIframesLoop (soup.iframes.filter twIframeSel) seen1
    with ⟨b, seen2⟩
  rcases h3 : twLinksLoop (soup.anchors.filter twLinkSel) seen2
    with ⟨c, seen3⟩
  rcases h4 : twRegexLoop (regexUrls f html twRegexPattern) seen3
    with ⟨d, seen4⟩
  have hE : extractTwitter soup html f = a ++ b ++ c ++ d := by
    simp only [extractTwitter]; rw [h1, h2, h3, h4]
  have s1 := twBlockquotesLoop_spec (soup.blockquotes.filter twBqSel) []
  rw [h1] at s1
  have s2 := twIframesLoop_spec (soup.iframes.filter twIframeSel) seen1
  rw [h2] at s2
  have s3 := twLinksLoop_spec (soup.anchors.filter twLinkSel) seen2
  rw [h3] at s3
  have s4 := twRegexLoop_spec (regexUrls f html twRegexPattern) seen3
  rw [h4] at s4
  obtain ⟨p1, n1, f1, m1⟩ := s1
  obtain ⟨p2, n2, f2, m2⟩ := s2
  obtain ⟨p3, n3, f3, m3⟩ := s3
  obtain ⟨p4, n4, f4, m4⟩ := s4
  rw [hE]
  constructor
  · exact mem_append_of (mem_append_of (mem_append_of
      (fun x hx => ⟨(p1 x hx).1, ct_ne_screenshot (p1 x hx).2 (by decide)⟩)
      (fun x hx => ⟨(p2 x hx).1, ct_ne_screenshot (p2 x hx).2 (by decide)⟩))
      (fun x hx => ⟨(p3 x hx).1, ct_ne_screenshot (p3 x hx).2 (by decide)⟩))
      (fun x hx => ⟨(p4 x hx).1, ct_ne_screenshot (p4 x hx).2 (by decide)⟩)
  · rw [urlsOf_append, urlsOf_append, urlsOf_append]
    have hA1 : ∀ u ∈ urlsOf a, u ∈ seen1 := fun u hu => (f1 u hu).2
    have N2 : (urlsOf a ++ urlsOf b).Nodup :=
      nodup_append_pred n1 hA1 n2 (fun u hu => (f2 u hu).1)
    have S2 : ∀ u ∈ urlsOf a ++ urlsOf b, u ∈ seen2 :=
      mem_append_of (fun u hu => m2 u (hA1 u hu)) (fun u hu => (f2 u hu).2)
    have N3 : (urlsOf a ++ urlsOf b ++ urlsOf c).Nodup :=
      nodup_append_pred N2 S2 n3 (fun u hu => (f3 u hu).1)
    have S3 : ∀ u ∈ urlsOf a ++ urlsOf b ++ urlsOf c, u ∈ seen3 :=
      mem_append_of (fun u hu => m3 u (S2 u hu)) (fun u hu => (f3 u hu).2)
    exact nodup_append_pred N3 S3 n4 (fun u hu => (f4 u hu).1)

lemma extractYoutube_spec (soup : Soup) (html : String)
    (f : String → String → List String) :
    (∀ c ∈ extractYoutube soup html f,
      c.platform = "youtube" ∧ c.contentType ≠ "screenshot") ∧
    (urlsOf (extractYoutube soup html f)).Nodup := by
  rcases h1 : ytIframesLoop (soup.iframes.filter ytIframeSel) [] []
    with ⟨a, seen1, ids1⟩
  rcases h2 : ytLinksLoop (soup.anchors.filter ytLinkSelWatch) seen1 ids1
    with ⟨b1, seen2, ids2⟩
  rcases h3 : ytLinksLoop (soup.anchors.filter ytLinkSelBe) seen2 ids2
    with ⟨b2, seen3, ids3⟩
  rcases h4 : ytLinksLoop (soup.anchors.filter ytLinkSelShorts) seen3 ids3
    with ⟨b3, seen4, ids4⟩
  rcases h5 : ytRegexLoop (regexUrls f html ytRegexPattern) seen4 ids4
    with ⟨d, seen5, ids5⟩
  have hE : extractYoutube soup html f = a ++ b1 ++ b2 ++ b3 ++ d := by
    simp only [extractYoutube]; rw [h1, h2, h3, h4, h5]
  have s1 := ytIframesLoop_spec (soup.iframes.filter ytIframeSel) [] []
  rw [h1] at s1
  have s2 := ytLinksLoop_spec (soup.anchors.filter ytLinkSelWatch) seen1 ids1
  rw [h2] at s2
  have s3 := ytLinksLoop_spec (soup.anchors.filter ytLinkSelBe) seen2 ids2
  rw [h3] at s3
  have s4 := ytLinksLoop_spec (soup.anchors.filter ytLinkSelShorts) seen3 ids3
  rw [h4] at s4
  have s5 := ytRegexLoop_spec (regexUrls f html ytRegexPattern) seen4 ids4
  rw [h5] at s5
  have hSI0 : ytSeenIds ([] : List String) [] :=
    fun u hu => absurd hu (List.not_mem_nil u)
  obtain ⟨p1, q1⟩ := s1
  obtain ⟨nd1, fr1, cm1, si1⟩ := q1 hSI0
  obtain ⟨p2, q2⟩ := s2
  obtain ⟨nd2, fr2, cm2, si2⟩ := q2 si1
  obtain ⟨p3, q3⟩ := s3
  obtain ⟨nd3, fr3, cm3, si3⟩ := q3 si2
  obtain ⟨p4, q4⟩ := s4
  obtain ⟨nd4, fr4, cm4, si4⟩ := q4 si3
  obtain ⟨p5, q5⟩ := s5
  obtain ⟨nd5, fr5, cm5, si5⟩ := q5 si4
  rw [hE]
  constructor
  · exact mem_append_of (mem_append_of (mem_append_of (mem_append_of
      (fun x hx => ⟨(p1 x hx).1, ct_ne_screenshot (p1 x hx).2 (by decide)⟩)
      (fun x hx => ⟨(p2 x hx).1, ct_ne_screenshot (p2 x hx).2 (by decide)⟩))
      (fun x hx => ⟨(p3 x hx).1, ct_ne_screenshot (p3 x hx).2 (by decide)⟩))
      (fun x hx => ⟨(p4 x hx).1, ct_ne_screenshot (p4 x hx).2 (by decide)⟩))
      (fun x hx => ⟨(p5 x hx).1, ct_ne_screenshot (p5 x hx).2 (by decide)⟩)
  · rw [urlsOf_append, urlsOf_append, urlsOf_append, urlsOf_append]
    have hA1 : ∀ u ∈ urlsOf a, ytCovered seen1 ids1 u := fun u hu => (fr1 u hu).2
    have N2 : (urlsOf a ++ urlsOf b1).Nodup :=
      nodup_append_pred nd1 hA1 nd2 (fun u hu => (fr2 u hu).1)
    have S2 : ∀ u ∈ urlsOf a ++ urlsOf b1, ytCovered seen2 ids2 u :=
      mem_append_of (fun u hu => cm2 u (hA1 u hu)) (fun u hu => (fr2 u hu).2)
    have N3 : (urlsOf a ++ urlsOf b1 ++ urlsOf b2).Nodup :=
      nodup_append_pred N2 S2 nd3 (fun u hu => (fr3 u hu).1)
    have S3 : ∀ u ∈ urlsOf a ++ urlsOf b1 ++ urlsOf b2, ytCovered seen3 ids3 u :=
      mem_append_of (fun u hu => cm3 u (S2 u hu)) (fun u hu => (fr3 u hu).2)
    have N4 : (urlsOf a ++ urlsOf b1 ++ urlsOf b2 ++ urlsOf b3).Nodup :=
      nodup_append_pred N3 S3 nd4 (fun u hu => (fr4 u hu).1)
    have S4 : ∀ u ∈ urlsOf a ++ urlsOf b1 ++ urlsOf b2 ++ urlsOf b3,
        ytCovered seen4 ids4 u :=
      mem_append_of (fun u hu => cm4 u (S3 u hu)) (fun u hu => (fr4 u hu).2)
    exact nodup_append_pred N4 S4 nd5 (fun u hu => (fr5 u hu).1)

lemma extractScreenshots_spec (soup : Soup) :
    ∀ c ∈ extractScreenshots soup, c.contentType = "screenshot" ∧ c.url = none := by
  intro c hc
  rcases List.mem_filterMap.mp hc with ⟨img, _, heq⟩
  rcases hm : screenshotPlatform img with _ | p
  · rw [hm] at heq
    exact Option.noConfusion heq
  · rw [hm] at heq
    have heq2 : (some { platform := p, contentType := "screenshot", thumbnailUrl := some (if truthy img.src then img.src.getD "" else if truthy img.dataSrc then img.dataSrc.getD "" else ""), caption := img.alt } : Option SocialContentData) = some c := heq
    rw [← Option.some_inj.mp heq2]
    exact ⟨rfl, rfl⟩

/-! ## Position and ordering lemmas (extract_all) -/

lemma withPositions_length :
    ∀ (l : List SocialContentData) (n : Nat),
      (withPositions n l).length = l.length := by
  intro l
  induction l with
  | nil => intro n; rfl
  | cons c rest ih =>
    intro n
    simp only [withPositions, List.length_cons, ih]

lemma withPositions_map_pos :
    ∀ (l : List SocialContentData) (n : Nat),
      (withPositions n l).map SocialContentData.positionInArticle =
        List.range' n l.length := by
  intro l
  induction l with
  | nil => intro n; rfl
  | cons c rest ih =>
    intro n
    simp only [withPositions, List.map_cons, List.length_cons, List.range'_succ]
    rw [ih]

lemma withPositions_map_catRank :
    ∀ (l : List SocialContentData) (n : Nat),
      (withPositions n l).map catRank = l.map catRank := by
  intro l
  induction l with
  | nil => intro n; rfl
  | cons c rest ih =>
    intro n
    simp only [withPositions, List.map_cons]
    rw [ih]
    rfl

lemma withPositions_map_proj :
    ∀ (l : List SocialContentData) (n : Nat),
      (withPositions n l).map projPCU = l.map projPCU := by
  intro l
  induction l with
  | nil => intro n; rfl
  | cons c rest ih =>
    intro n
    simp only [withPositions, List.map_cons]
    rw [ih]
    rfl

lemma catRank_eq_platRank {c : SocialContentData}
    (h : c.contentType ≠ "screenshot") : catRank c = platRank c.platform := by
  simp only [catRank]
  rw [beq_eq_false_iff_ne.mpr h]
  simp

lemma catRank_of_screenshot {c : SocialContentData}
    (h : c.contentType = "screenshot") : catRank c = 4 := by
  simp [catRank, h]

lemma pairwise_catRank_const :
    ∀ {l : List SocialContentData} (k : Nat), (∀ c ∈ l, catRank c = k) →
      l.Pairwise (fun a b => catRank a ≤ catRank b) := by
  intro l
  induction l with
  | nil => intro k h; exact List.Pairwise.nil
  | cons x rest ih =>
    intro k h
    refine List.Pairwise.cons ?_ (ih k (fun c hc => h c (List.mem_cons_of_mem _ hc)))
    intro b hb
    have h1 := h x (List.mem_cons_self _ _)
    have h2 := h b (List.mem_cons_of_mem _ hb)
    omega

lemma pairwise_url_of_nodup :
    ∀ {l : List SocialContentData}, (urlsOf l).Nodup →
      l.Pairwise (fun a b => a.platform = b.platform → a.url ≠ none → a.url ≠ b.url) := by
  intro l
  induction l with
  | nil => intro h; exact List.Pairwise.nil
  | cons x rest ih =>
    intro h
    cases hx : x.url with
    | none =>
      have h2 : (urlsOf rest).Nodup := by
        have he : urlsOf (x :: rest) = urlsOf rest :=
          List.filterMap_cons_none hx
        rw [he] at h
        exact h
      refine List.Pairwise.cons ?_ (ih h2)
      intro b hb hpe hne
      exact absurd hx hne
    | some u =>
      have he : urlsOf (x :: rest) = u :: urlsOf rest :=
        List.filterMap_cons_some hx
      rw [he] at h
      obtain ⟨hnotin, hrest⟩ := List.nodup_cons.mp h
      refine List.Pairwise.cons ?_ (ih hrest)
      intro b hb hpe hne heq
      apply hnotin
      rw [hx] at heq
      exact List.mem_filterMap.mpr ⟨b, hb, heq.symm⟩

/-- C6: the category rank facts of the five extraction passes. -/
lemma extractAll_block_ranks (soup : Soup) (html : String)
    (f : String → String → List String) :
    (∀ c ∈ extractTiktok soup html f, catRank c = 0) ∧
    (∀ c ∈ extractInstagram soup html f, catRank c = 1) ∧
    (∀ c ∈ extractTwitter soup html f, catRank c = 2) ∧
    (∀ c ∈ extractYoutube soup html f, catRank c = 3) ∧
    (∀ c ∈ extractScreenshots soup, catRank c = 4) := by
  refine ⟨fun c hc => ?_, fun c hc => ?_, fun c hc => ?_, fun c hc => ?_,
    fun c hc => ?_⟩
  · obtain ⟨hp, hct⟩ := (extractTiktok_spec soup html f).1 c hc
    rw [catRank_eq_platRank hct, hp]
    decide
  · obtain ⟨hp, hct⟩ := (extractInstagram_spec soup html f).1 c hc
    rw [catRank_eq_platRank hct, hp]
    decide
  · obtain ⟨hp, hct⟩ := (extractTwitter_spec soup html f).1 c hc
    rw [catRank_eq_platRank hct, hp]
    decide
  · obtain ⟨hp, hct⟩ := (extractYoutube_spec soup html f).1 c hc
    rw [catRank_eq_platRank hct, hp]
    decide
  · exact catRank_of_screenshot (extractScreenshots_spec soup c hc).1

/-- C6: extract_all assigns positions 0..N-1 in list order, and the list is
sorted by the extraction-pass category rank: every tiktok reference precedes
every instagram reference, which precede twitter, then youtube, then the
screenshot pass. -/
theorem extractAll_positions_order (soup : Soup) (html : String)
    (f : String → String → List String) :
    (extractAll soup html f).map SocialContentData.positionInArticle =
      List.range (extractAll soup html f).length ∧
    (extractAll soup html f).Pairwise (fun a b => catRank a ≤ catRank b) := by
  obtain ⟨hk0, hk1, hk2, hk3, hk4⟩ := extractAll_block_ranks soup html f
  constructor
  · simp only [extractAll]
    rw [withPositions_map_pos, withPositions_length, List.range_eq_range']
  · have hP01 : (extractTiktok soup html f ++
        extractInstagram soup html f).Pairwise
        (fun a b => catRank a ≤ catRank b) := by
      rw [List.pairwise_append]
      refine ⟨pairwise_catRank_const 0 hk0, pairwise_catRank_const 1 hk1, ?_⟩
      intro a ha b hb
      have ha2 := hk0 a ha
      have hb2 := hk1 b hb
      omega
    have hle1 : ∀ c ∈ extractTiktok soup html f ++ extractInstagram soup html f,
        catRank c ≤ 1 :=
      mem_append_of (fun c hc => by have := hk0 c hc; omega)
        (fun c hc => by have := hk1 c hc; omega)
    have hP02 : (extractTiktok soup html f ++ extractInstagram soup html f ++
        extractTwitter soup html f).Pairwise (fun a b => catRank a ≤ catRank b) := by
      rw [List.pairwise_append]
      refine ⟨hP01, pairwise_catRank_const 2 hk2, ?_⟩
      intro a ha b hb
      have ha2 := hle1 a ha
      have hb2 := hk2 b hb
      omega
    have hle2 : ∀ c ∈ extractTiktok soup html f ++ extractInstagram soup html f ++
        extractTwitter soup html f, catRank c ≤ 2 :=
      mem_append_of (fun c hc => by have := hle1 c hc; omega)
        (fun c hc => by have := hk2 c hc; omega)
    have hP03 : (extractTiktok soup html f ++ extractInstagram soup html f ++
        extractTwitter soup html f ++ extractYoutube soup html f).Pairwise
        (fun a b => catRank a ≤ catRank b) := by
      rw [List.pairwise_append]
      refine ⟨hP02, pairwise_catRank_const 3 hk3, ?_⟩
      intro a ha b hb
      have ha2 := hle2 a ha
      have hb2 := hk3 b hb
      omega
    have hle3 : ∀ c ∈ extractTiktok soup html f ++ extractInstagram soup html f ++
        extractTwitter soup html f ++ extractYoutube soup html f, catRank c ≤ 3 :=
      mem_append_of (fun c hc => by have := hle2 c hc; omega)
        (fun c hc => by have := hk3 c hc; omega)
    have hP : (extractTiktok soup html f ++ extractInstagram soup html f ++
        extractTwitter soup html f ++ extractYoutube soup html f ++
        extractScreenshots soup).Pairwise (fun a b => catRank a ≤ catRank b) := by
      rw [List.pairwise_append]
      refine ⟨hP03, pairwise_catRank_const 4 hk4, ?_⟩
      intro a ha b hb
      have ha2 := hle3 a ha
      have hb2 := hk4 b hb
      omega
    have hmap : ((extractTiktok soup html f ++ extractInstagram soup html f ++
        extractTwitter soup html f ++ extractYoutube soup html f ++
        extractScreenshots soup).map catRank).Pairwise (· ≤ ·) :=
      List.pairwise_map.mpr hP
    rw [← withPositions_map_catRank _ 0] at hmap
    have := List.pairwise_map.mp hmap
    simpa only [extractAll] using this

/-- C7 counterexample: a document whose single anchor href matches both the
instagram /p/ pattern and the twitter status pattern yields one instagram
reference and one twitter reference carrying the same url, so the urls of one
extract_all pass are not globally unique. -/
theorem extractAll_dup_url_counterexample :
    (extractAll dupSoup "" fditerEmpty).map (fun c => (c.platform, c.url)) =
      [("instagram", some dupHref), ("twitter", some dupHref)] ∧
    ¬ ((extractAll dupSoup "" fditerEmpty).filterMap
        SocialContentData.url).Nodup := by
  constructor
  · rfl
  · decide

/-- C7 (amended): within one extract_all pass, urls are unique per platform:
no two references that carry the same platform share a non-absent url value
(first occurrence, in strategy order, wins); references of different
platforms can share a url. -/
theorem extractAll_url_unique_per_platform (soup : Soup) (html : String)
    (f : String → String → List String) :
    (extractAll soup html f).Pairwise
      (fun a b => a.platform = b.platform → a.url ≠ none → a.url ≠ b.url) := by
  obtain ⟨pTk, nTk⟩ := extractTiktok_spec soup html f
  obtain ⟨pIg, nIg⟩ := extractInstagram_spec soup html f
  obtain ⟨pTw, nTw⟩ := extractTwitter_spec soup html f
  obtain ⟨pYt, nYt⟩ := extractYoutube_spec soup html f
  have pSs := extractScreenshots_spec soup
  -- within a platform pass, the per-pass seen set makes urls distinct
  have wTk := pairwise_url_of_nodup nTk
  have wIg := pairwise_url_of_nodup nIg
  have wTw := pairwise_url_of_nodup nTw
  have wYt := pairwise_url_of_nodup nYt
  -- cross-pass pairs either differ in platform or have an absent url
  have hP01 : (extractTiktok soup html f ++ extractInstagram soup html f).Pairwise
      (fun a b => a.platform = b.platform → a.url ≠ none → a.url ≠ b.url) := by
    rw [List.pairwise_append]
    refine ⟨wTk, wIg, ?_⟩
    intro a ha b hb hpe
    exact absurd (((pTk a ha).1.symm.trans hpe).trans (pIg b hb).1) (by decide)
  have hP02 : (extractTiktok soup html f ++ extractInstagram soup html f ++
      extractTwitter soup html f).Pairwise
      (fun a b => a.platform = b.platform → a.url ≠ none → a.url ≠ b.url) := by
    rw [List.pairwise_append]
    refine ⟨hP01, wTw, ?_⟩
    intro a ha b hb hpe
    rcases List.mem_append.mp ha with ha2 | ha2
    · exact absurd (((pTk a ha2).1.symm.trans hpe).trans (pTw b hb).1) (by decide)
    · exact absurd (((pIg a ha2).1.symm.trans hpe).trans (pTw b hb).1) (by decide)
  have hP03 : (extractTiktok soup html f ++ extractInstagram soup html f ++
      extractTwitter soup html f ++ extractYoutube soup html f).Pairwise
      (fun a b => a.platform = b.platform → a.url ≠ none → a.url ≠ b.url) := by
    rw [List.pairwise_append]
    refine ⟨hP02, wYt, ?_⟩
    intro a ha b hb hpe
    rcases List.mem_append.mp ha with ha2 | ha2
    · rcases List.mem_append.mp ha2 with ha3 | ha3
      · exact absurd (((pTk a ha3).1.symm.trans hpe).trans (pYt b hb).1) (by decide)
      · exact absurd (((pIg a ha3).1.symm.trans hpe).trans (pYt b hb).1) (by decide)
    · exact absurd (((pTw a ha2).1.symm.trans hpe).trans (pYt b hb).1) (by decide)
  have hP : (extractTiktok soup html f ++ extractInstagram soup html f ++
      extractTwitter soup html f ++ extractYoutube soup html f ++
      extractScreenshots soup).Pairwise
      (fun a b => a.platform = b.platform → a.url ≠ none → a.url ≠ b.url) := by
    rw [List.pairwise_append]
    refine ⟨hP03, ?_, ?_⟩
    · refine List.pairwise_of_forall_mem_list ?_
      intro a ha b hb hpe hne
      exact absurd ((pSs a ha).2) hne
    · intro a ha b hb hpe hne heq
      exact hne (heq.trans (pSs b hb).2)
  have hmap : ((extractTiktok soup html f ++ extractInstagram soup html f ++
      extractTwitter soup html f ++ extractYoutube soup html f ++
      extractScreenshots soup).map projPCU).Pairwise
      (fun x y => x.1 = y.1 → x.2.2 ≠ none → x.2.2 ≠ y.2.2) :=
    List.pairwise_map.mpr hP
  rw [← withPositions_map_proj _ 0] at hmap
  have := List.pairwise_map.mp hmap
  simpa only [extractAll] using this

end Sge
